/-
  Verification of the spritesheet batch-rendering core
  (execution-plan builder, plan synchronizer, modal batch driver,
  sheet assembler) against its natural-language specification.

  The Python source is shallowly embedded: pure functions become Lean
  functions, the stateful modal operator becomes explicit state passing
  over a `World` record, `bpy` scene data becomes plain records, and the
  external render invocation becomes an oracle that reports elapsed time
  and may fail.  Machine integers are modelled as `Int` (Python ints are
  unbounded).  Wall-clock durations are opaque measured values, modelled
  as `Int` supplied by the oracle; pixel channel values are only ever
  moved (never combined arithmetically), so they are modelled as `Int`
  as well.
-/
import Mathlib

namespace SGG

/-! ## Frame Range (core.py, `FrameRangePlan`) -/

/-- `FrameRangePlan` from core.py: immutable frame range with a step.
The Python field `end` is a Lean keyword, rendered here as `stop`. -/
structure FrameRangePlan where
  start : Int
  stop : Int
  step : Int
  deriving DecidableEq, Repr

/-- `FrameRangePlan.frames` from core.py:
`step = max(1, self.step); if self.end < self.start: return range(0);
return range(self.start, self.end + 1, step)`.
Python `range(a, b, s)` with `s ≥ 1` yields `a, a+s, ...` while `< b`;
its length is `((b - a) + s - 1) // s` when `b > a`, which for
`b = stop + 1 ≥ start + 1` equals `(stop - start) / s + 1`. -/
def FrameRangePlan.frames (r : FrameRangePlan) : List Int :=
  let step := max 1 r.step
  if r.stop < r.start then []
  else (List.range ((r.stop - r.start).toNat / step.toNat + 1)).map
    (fun i : Nat => r.start + step * (i : Int))

/-! ## Scene data model (opaque Blender handles)

Blender datablocks (`Action`, `Object`, NLA strips, `AnimationData`) are
host-owned references; the core only reads the fields below.  Each
datablock carries a numeric `id` so that distinct datablocks are
structurally distinct — structural equality of the models then coincides
with Python's identity comparison of the references. -/

/-- A Blender `Action` datablock: name and its own authored frame range. -/
structure BAction where
  id : Nat
  name : String
  frame_start : Int
  frame_end : Int
  deriving DecidableEq, Repr, Inhabited

/-- An NLA strip: optional action reference plus the strip's frame range. -/
structure BStrip where
  action : Option BAction
  frame_start : Int
  frame_end : Int
  deriving DecidableEq, Repr

/-- `Object.animation_data`: the active action plus NLA tracks of strips. -/
structure BAnimData where
  action : Option BAction
  nla_tracks : List (List BStrip)
  deriving DecidableEq, Repr

/-- A Blender `Object` as the planner sees it: identity, name, the `type`
string (`"ARMATURE"` for armatures) and its animation data. -/
structure BArmature where
  id : Nat
  name : String
  type : String
  animation_data : Option BAnimData
  deriving DecidableEq, Repr, Inhabited

/-! ## Persistent planning state (sgg_classes.py) -/

/-- `SGG_ActionPlanItem` from sgg_classes.py. -/
structure SGG_ActionPlanItem where
  enabled : Bool
  name : String
  frame_start : Int
  frame_end : Int
  action : Option BAction
  reverse_playback : Bool
  deriving DecidableEq, Repr, Inhabited

/-- `SGG_ArmaturePlanItem` from sgg_classes.py. -/
structure SGG_ArmaturePlanItem where
  enabled : Bool
  ui_expanded : Bool
  name : String
  armature : Option BArmature
  actions : List SGG_ActionPlanItem
  deriving DecidableEq, Repr, Inhabited

/-! ## Execution plan (core.py) -/

/-- `ActionExecPlan` from core.py. -/
structure ActionExecPlan where
  armature_obj : BArmature
  action : BAction
  frame_range : FrameRangePlan
  deriving DecidableEq, Repr

/-- `BatchExecPlan` from core.py. -/
structure BatchExecPlan where
  actions : List ActionExecPlan
  directions : Int
  deriving DecidableEq, Repr

/-- Inner loop body of `BatchExecPlan.from_scene` (core.py): one `act_item`
of the current armature; skips disabled entries, unresolved actions and
inverted ranges, otherwise appends one `ActionExecPlan`. -/
def fromSceneInnerStep (arm_obj : BArmature) (step : Int)
    (acc2 : List ActionExecPlan) (act_item : SGG_ActionPlanItem) :
    List ActionExecPlan :=
  if ! act_item.enabled then acc2 else
  match act_item.action with
  | none => acc2
  | some act =>
    if act_item.frame_end < act_item.frame_start then acc2 else
    acc2 ++ [ActionExecPlan.mk arm_obj act
      (FrameRangePlan.mk act_item.frame_start act_item.frame_end step)]

/-- Outer loop body of `BatchExecPlan.from_scene` (core.py): one `arm_item`;
skips disabled entries and entries without a valid armature object. -/
def fromSceneOuterStep (step : Int) (acc : List ActionExecPlan)
    (arm_item : SGG_ArmaturePlanItem) : List ActionExecPlan :=
  if ! arm_item.enabled then acc else
  match arm_item.armature with
  | none => acc
  | some arm_obj =>
    if arm_obj.type ≠ "ARMATURE" then acc else
    arm_item.actions.foldl (fromSceneInnerStep arm_obj step) acc

/-- `BatchExecPlan.from_scene` from core.py: builds the immutable execution
plan from the planning collection.  The Python loops append to a single
`actions` list; here the two nested `for` loops with `continue` become
nested left folds over the same accumulator. -/
def BatchExecPlan.from_scene (plan_armatures : List SGG_ArmaturePlanItem)
    (directions frame_step : Int) : BatchExecPlan :=
  let directions := max 1 directions
  let step := max 1 frame_step
  BatchExecPlan.mk (plan_armatures.foldl (fromSceneOuterStep step) []) directions

/-! ### C6: plan-builder characterization

The following two definitions restate §4.2 of the spec in its own words
(eligibility of a clip-entry / subject-entry); they are compared with
`BatchExecPlan.from_scene` in the C6 theorem. -/

/-- Spec wording: a clip-entry is eligible when it is enabled, resolves to a
valid clip, and has `frame_end >= frame_start`. -/
def clipEligible (c : SGG_ActionPlanItem) : Bool :=
  c.enabled && c.action.isSome && decide (c.frame_start ≤ c.frame_end)

/-- Spec wording: a subject-entry is eligible when it is enabled and resolves
to a valid armature object. -/
def subjectEligible (s : SGG_ArmaturePlanItem) : Bool :=
  s.enabled && (match s.armature with
    | some o => o.type == "ARMATURE"
    | none => false)

/-- Spec wording (§4.2): the plan entry an eligible (subject, clip) pair
contributes, with frame range `(frame_start, frame_end, step)`. -/
def specEntryOf (arm : BArmature) (step : Int) (c : SGG_ActionPlanItem) :
    ActionExecPlan :=
  ActionExecPlan.mk arm (c.action.getD default)
    (FrameRangePlan.mk c.frame_start c.frame_end step)

/-- Spec wording (§4.2): one Action Plan Entry per eligible (subject, clip)
pair, in the planning state's stable iteration order. -/
def specPlanEntries (ps : List SGG_ArmaturePlanItem) (step : Int) :
    List ActionExecPlan :=
  (ps.filter subjectEligible).flatMap (fun s =>
    (s.actions.filter clipEligible).map (specEntryOf (s.armature.getD default) step))

/-! ## Batch driver cursor (batch_rendering.py, `_next_frame`)

The modal operator's iteration state consists of `_plan`, `_action_index`,
`_direction_index`, `_frame_iter` and `_current_action_plan`.  A Python
iterator over `range(...)` is modelled by the list of values it has not
yet produced.  The `while True` loop of `_next_frame` is modelled by a
single-pass step function plus a fuel-indexed driver; a computable fuel
bound `cursorFuel` is proved sufficient, so the defaulted `_next_frame`
below never actually hits the fuel limit. -/

/-- Iteration state of `SGG_OT_execute_batch` (batch_rendering.py). -/
structure DriverCursor where
  plan : BatchExecPlan
  action_index : Nat
  direction_index : Nat
  frame_iter : Option (List Int)
  current_action_plan : Option ActionExecPlan
  deriving DecidableEq, Repr

/-- A work unit produced by `_next_frame`: (action plan, direction, frame). -/
abbrev WorkUnit := ActionExecPlan × Nat × Int

/-- Result of one pass through the body of `_next_frame`'s `while` loop:
either a work unit is returned, or the plan is exhausted (`done`), or the
Python `continue` re-enters the loop (`again`). -/
inductive PassResult where
  | yield (item : WorkUnit) (s : DriverCursor)
  | done (s : DriverCursor)
  | again (s : DriverCursor)
  deriving Repr

/-- Second half of the loop body of `_next_frame`, entered once
`_current_action_plan` is the plan `cur`: the direction-exhaustion check,
lazy creation of `_frame_iter`, and the `next()` call. -/
def passAfterLoad (s : DriverCursor) (cur : ActionExecPlan) : PassResult :=
  if (s.direction_index : Int) ≥ s.plan.directions then
    PassResult.again { s with action_index := s.action_index + 1,
                              current_action_plan := none }
  else
    let iter := match s.frame_iter with
      | none => cur.frame_range.frames
      | some it => it
    match iter with
    | f :: rest =>
      PassResult.yield (cur, s.direction_index, f) { s with frame_iter := some rest }
    | [] =>
      PassResult.again { s with frame_iter := none,
                                direction_index := s.direction_index + 1 }

instance : Inhabited ActionExecPlan :=
  ⟨ActionExecPlan.mk default default (FrameRangePlan.mk 0 0 1)⟩

/-- One pass through the body of `_next_frame`'s `while` loop
(batch_rendering.py): load the next action plan if none is current, then
run `passAfterLoad`. -/
def nextFramePass (s : DriverCursor) : PassResult :=
  match s.current_action_plan with
  | none =>
    if s.plan.actions.length ≤ s.action_index then PassResult.done s
    else
      let cur := s.plan.actions.getD s.action_index default
      passAfterLoad { s with current_action_plan := some cur,
                             direction_index := 0, frame_iter := none } cur
  | some cur => passAfterLoad s cur

/-- Fuel-indexed `_next_frame`: iterate loop passes; `none` means the fuel
ran out (proved unreachable for fuel `> cursorFuel s`). -/
def nextFrameAux : Nat → DriverCursor → Option (Option WorkUnit × DriverCursor)
  | 0, _ => none
  | fuel + 1, s =>
    match nextFramePass s with
    | PassResult.yield item s' => some (some item, s')
    | PassResult.done s' => some (none, s')
    | PassResult.again s' => nextFrameAux fuel s'

/-- Computable bound on the number of loop passes `_next_frame` can make
from state `s` (strictly decreasing along `again` transitions). -/
def cursorFuel (s : DriverCursor) : Nat :=
  (s.plan.actions.length + 1 - min s.action_index (s.plan.actions.length + 1))
      * (2 * s.plan.directions.toNat + 3)
    + (s.plan.directions.toNat - min s.direction_index s.plan.directions.toNat)
    + (if s.current_action_plan.isNone then s.plan.directions.toNat + 1 else 0)

/-- Total `_next_frame`: runs the loop with the proven-sufficient fuel.
The `getD` default is dead code (see `nextFrameAux_spec`). -/
def nextFrame (s : DriverCursor) : Option WorkUnit × DriverCursor :=
  (nextFrameAux (cursorFuel s + 1) s).getD (none, s)

/-- Well-formedness of a cursor: whenever an action plan is current, the
action index is still in range.  Holds initially and is preserved by
every pass. -/
def CursorInv (s : DriverCursor) : Prop :=
  s.current_action_plan.isSome → s.action_index < s.plan.actions.length

/-- The triples contributed by directions `d, d+1, ..., dD-1` of one plan
entry, in order. -/
def dirsFrom (dD : Nat) (a : ActionExecPlan) (d : Nat) : List WorkUnit :=
  (List.range' d (dD - d)).flatMap (fun j => a.frame_range.frames.map (fun f => (a, j, f)))

/-- All triples contributed by plan entries from index `ai` on. -/
def flattenFrom (plan : BatchExecPlan) (ai : Nat) : List WorkUnit :=
  (plan.actions.drop ai).flatMap (fun a => dirsFrom plan.directions.toNat a 0)

/-- The list of work units `_next_frame` has yet to produce from cursor
state `s` (specification function for the loop). -/
def remainingUnits (s : DriverCursor) : List WorkUnit :=
  match s.current_action_plan with
  | none => flattenFrom s.plan s.action_index
  | some a =>
    if s.plan.directions.toNat ≤ s.direction_index then
      flattenFrom s.plan (s.action_index + 1)
    else (match s.frame_iter with
      | none => dirsFrom s.plan.directions.toNat a s.direction_index
      | some rest => rest.map (fun f => (a, s.direction_index, f))
          ++ dirsFrom s.plan.directions.toNat a (s.direction_index + 1))
      ++ flattenFrom s.plan (s.action_index + 1)

/-- Repeatedly call `_next_frame`, collecting the produced work units until
it reports exhaustion; `none` if the (outer) fuel runs out first. -/
def collectUnits : Nat → DriverCursor → Option (List WorkUnit)
  | 0, _ => none
  | n + 1, s =>
    match nextFrame s with
    | (none, _) => some []
    | (some item, s') => (collectUnits n s').map (fun l => item :: l)

/-- Initial cursor state set up by `SGG_OT_execute_batch.execute`
(batch_rendering.py): indices 0, no iterator, no current action plan. -/
def initCursor (plan : BatchExecPlan) : DriverCursor :=
  DriverCursor.mk plan 0 0 none none

/-- The spec's triple-nested iteration order (§4.4): entries in plan order,
directions `0 .. direction_count - 1` ascending within each entry, frames
in range order within each direction. -/
def nestedTriples (plan : BatchExecPlan) : List WorkUnit :=
  plan.actions.flatMap (fun a =>
    (List.range plan.directions.toNat).flatMap (fun d =>
      a.frame_range.frames.map (fun f => (a, d, f))))

/-! ## Scene queries (core.py) -/

/-- `find_armatures_in_collection` from core.py: all objects of type
`'ARMATURE'` in the collection (non-recursive); empty for `None`. -/
def find_armatures_in_collection (collection : Option (List BArmature)) :
    List BArmature :=
  match collection with
  | none => []
  | some objs => objs.filter (fun o => o.type == "ARMATURE")

/-- `find_actions_for_armature` from core.py: the active action (if any)
followed by each distinct NLA strip action, in track/strip order, with
first-occurrence deduplication. -/
def find_actions_for_armature (arm : BArmature) : List BAction :=
  match arm.animation_data with
  | none => []
  | some ad =>
    let base := match ad.action with
      | some a => [a]
      | none => []
    ad.nla_tracks.foldl (fun acc track =>
      track.foldl (fun acc2 strip =>
        match strip.action with
        | some a => if a ∈ acc2 then acc2 else acc2 ++ [a]
        | none => acc2) acc) base

/-- `compute_action_frame_range` from core.py. -/
def compute_action_frame_range (a : BAction) : Int × Int :=
  (a.frame_start, a.frame_end)

/-- First NLA strip (track order, then strip order) whose action is `a`;
used by `compute_effective_action_frame_range`. -/
def findStripRange : List (List BStrip) → BAction → Option (Int × Int)
  | [], _ => none
  | track :: rest, a =>
    match track.find? (fun strip => strip.action == some a) with
    | some strip => some (strip.frame_start, strip.frame_end)
    | none => findStripRange rest a

/-- `compute_effective_action_frame_range` from core.py: the range of the
first NLA strip referencing the action, else the action's own range. -/
def compute_effective_action_frame_range (arm : BArmature) (a : BAction) :
    Int × Int :=
  match arm.animation_data with
  | none => compute_action_frame_range a
  | some ad =>
    match findStripRange ad.nla_tracks a with
    | some r => r
    | none => compute_action_frame_range a

/-! ## Plan Synchronizer (ops.py, `SGG_OT_plan_and_run._build_plan`)

The Python code mutates `scene.sgg_plan_armatures` in place: it snapshots
a dict from armature object to plan item before the loop, appends fresh
items for unseen armatures, synchronizes each armature's nested action
list (again via a pre-loop dict snapshot), and finally removes stale
items by reverse-index iteration.  Here the plan is a list; in-place
mutation of the item an (index-valued) dict entry points to becomes
`List.set` at that index, appends stay appends, and reverse-index removal
becomes an order-preserving `filter`. -/

/-- A fresh `SGG_ActionPlanItem` as `_build_plan` creates it for a newly
discovered action: disabled, default range from the effective frame
range, `reverse_playback` at its property default `False`. -/
def freshActionItem (obj : BArmature) (a : BAction) : SGG_ActionPlanItem :=
  SGG_ActionPlanItem.mk false a.name
    (compute_effective_action_frame_range obj a).1
    (compute_effective_action_frame_range obj a).2
    (some a) false

/-- Membership test of the pre-loop dict `existing_actions_by_action`
(ops.py): is some item of the list bound to action `a`? -/
def hasAction (items : List SGG_ActionPlanItem) (a : BAction) : Bool :=
  items.any (fun it => it.action == some a)

/-- The removal condition of `_build_plan`'s action cleanup, positively:
keep an item iff its action resolves and was discovered this sync. -/
def keepPred (actions : List BAction) (it : SGG_ActionPlanItem) : Bool :=
  match it.action with
  | none => false
  | some a => a ∈ actions

/-- The per-armature action synchronization of `_build_plan` (ops.py):
append a fresh item for each discovered action missing from the pre-loop
snapshot, then drop items whose action is gone or no longer discovered
(reverse-index removal, modelled as an order-preserving filter). -/
def sync_actions (obj : BArmature) (item : SGG_ArmaturePlanItem) :
    SGG_ArmaturePlanItem :=
  let actions := find_actions_for_armature obj
  { item with actions := (item.actions
      ++ (actions.filter (fun a => ! hasAction item.actions a)).map
          (freshActionItem obj)).filter (keepPred actions) }

/-- A fresh `SGG_ArmaturePlanItem` as `_build_plan` creates it for a newly
discovered armature: enabled and expanded, no actions yet. -/
def freshArmItem (obj : BArmature) : SGG_ArmaturePlanItem :=
  SGG_ArmaturePlanItem.mk true true obj.name (some obj) []

/-- Index of the plan item the dict `existing_arms_by_obj` maps `obj` to:
the last item whose `armature` is `obj` (forward dict building, last
write wins). -/
def lastIdxByArm : List SGG_ArmaturePlanItem → BArmature → Option Nat
  | [], _ => none
  | it :: rest, o =>
    match lastIdxByArm rest o with
    | some i => some (i + 1)
    | none => if it.armature == some o then some 0 else none

/-- One iteration of `_build_plan`'s armature loop: reuse (and
action-sync, in place) the dict-snapshot item when present, else append a
fresh synced item.  `origPlan` is the pre-loop dict snapshot. -/
def buildPlanStep (origPlan : List SGG_ArmaturePlanItem)
    (cur : List SGG_ArmaturePlanItem) (obj : BArmature) :
    List SGG_ArmaturePlanItem :=
  match lastIdxByArm origPlan obj with
  | some i => cur.set i (sync_actions obj (cur.getD i default))
  | none => cur ++ [sync_actions obj (freshArmItem obj)]

/-- The final removal condition of `_build_plan`, positively: keep a plan
item iff its armature resolves and is still in the collection. -/
def keepArm (armatures : List BArmature) (it : SGG_ArmaturePlanItem) : Bool :=
  match it.armature with
  | none => false
  | some o => o ∈ armatures

/-- `SGG_OT_plan_and_run._build_plan` from ops.py. -/
def build_plan (collection : Option (List BArmature))
    (plan : List SGG_ArmaturePlanItem) : List SGG_ArmaturePlanItem :=
  match collection with
  | none => plan
  | some objs =>
    ((find_armatures_in_collection (some objs)).foldl (buildPlanStep plan) plan).filter
      (keepArm (find_armatures_in_collection (some objs)))

/-- Apply an index-dependent function to every element of a plan list. -/
def applyIdx (F : Nat → SGG_ArmaturePlanItem → SGG_ArmaturePlanItem) :
    Nat → List SGG_ArmaturePlanItem → List SGG_ArmaturePlanItem
  | _, [] => []
  | i, it :: rest => F i it :: applyIdx F (i + 1) rest

/-! ### Closed form of `_build_plan`'s armature loop -/

/-- The item at index `i` after the armature loop has processed the
armatures `A`: action-synced for its armature `o` exactly when `o` was
processed and the pre-loop dict points at this index. -/
def syncedAt (p : List SGG_ArmaturePlanItem) (A : List BArmature) (i : Nat)
    (it : SGG_ArmaturePlanItem) : SGG_ArmaturePlanItem :=
  match it.armature with
  | some o => if o ∈ A ∧ lastIdxByArm p o = some i then sync_actions o it else it
  | none => it

/-- The items appended by the armature loop: one freshly created, synced
item per processed armature absent from the pre-loop dict. -/
def freshPart (p : List SGG_ArmaturePlanItem) (A : List BArmature) :
    List SGG_ArmaturePlanItem :=
  (A.filter (fun o => lastIdxByArm p o == none)).map
    (fun o => sync_actions o (freshArmItem o))

/-! ### The second synchronizer run is a no-op -/

/-- The item the armature dict selects for `o` (the last one whose
armature is `o`) is a fixed point of `sync_actions o`. -/
def LastSynced (l : List SGG_ArmaturePlanItem) (o : BArmature) : Prop :=
  ∀ i, lastIdxByArm l o = some i →
    sync_actions o (l.getD i default) = l.getD i default

/-! ## The modal batch driver (batch_rendering.py, `SGG_OT_execute_batch`)

Host scene state mutated during a run: the scene's current frame pointer,
the render output filepath, and each armature object's animation data.
Armature identity is the object's `id`; animation data is an association
list keyed by armature id whose entry presence models `animation_data`
being non-`None` and whose value models `animation_data.action` (an
optional action id).  The external render invocation is an oracle indexed
by the number of render calls made so far: it may fail (raising, as
`bpy.ops.render.render` can) and otherwise reports the measured wall-clock
duration of the call.  File-system effects (`os.makedirs`, PNG writing)
are external and not modelled; the list of written sheet files is
tracked abstractly in `sheets_written`. -/

/-- Python-dict-style lookup in an association list (first match). -/
def lookupAnim : List (Nat × Option Nat) → Nat → Option (Option Nat)
  | [], _ => none
  | e :: rest, armId => if e.1 == armId then some e.2 else lookupAnim rest armId

/-- Host scene state touched by the batch driver. -/
structure SceneState where
  frame_current : Int
  render_filepath : String
  anim_data : List (Nat × Option Nat)
  deriving DecidableEq, Repr

/-- `ad.action if ad else None` (batch_rendering.py `execute`): the
armature's active action binding, `none` when it has no animation data. -/
def adActionOrNone (scene : SceneState) (armId : Nat) : Option Nat :=
  match lookupAnim scene.anim_data armId with
  | none => none
  | some act => act

/-- `arm_obj.animation_data_create()`: create empty animation data if the
object has none. -/
def animDataCreate (scene : SceneState) (armId : Nat) : SceneState :=
  match lookupAnim scene.anim_data armId with
  | some _ => scene
  | none => { scene with anim_data := scene.anim_data ++ [(armId, none)] }

/-- `arm_obj.animation_data.action = act`. -/
def setAnimAction (scene : SceneState) (armId : Nat) (act : Option Nat) :
    SceneState :=
  let ad := scene.anim_data.map (fun e => if e.1 == armId then (e.1, act) else e)
  { scene with anim_data := ad }

/-- The `SGG_GlobalSettings` fields the batch driver reads or writes
(sgg_classes.py).  `batch_processed_frames` and `batch_total_frames` are
declared there with progress-tracking documentation; whether the driver
maintains them is exactly what claims C4/C5 examine. -/
structure Settings where
  last_frame_render_seconds : Int
  batch_processed_frames : Int
  batch_total_frames : Int
  delete_frame_pngs : Bool
  deriving DecidableEq, Repr

/-- The external render invocation: call number `k` either fails (raises)
or succeeds taking `time k` wall-clock seconds (opaque measured value). -/
structure RenderOracle where
  fails : Nat → Bool
  time : Nat → Int

/-- The modal operator's instance state (the `self._...` fields of
`SGG_OT_execute_batch`). -/
structure OpState where
  plan : Option BatchExecPlan
  action_index : Nat
  direction_index : Nat
  frame_iter : Option (List Int)
  current_action_plan : Option ActionExecPlan
  original_frame : Int
  original_filepath : String
  original_actions : List (Nat × Option Nat)
  output_dir : String
  frame_paths : List ((Nat × Nat) × List String)
  timer : Bool
  deriving DecidableEq, Repr

/-- The whole mutable world as the driver sees it.  `renders_done` counts
completed external render invocations (it indexes the oracle);
`sheets_written` records sheet files written by the assembler. -/
structure World where
  scene : SceneState
  settings : Settings
  op : OpState
  sheets_written : List String
  renders_done : Nat
  deriving DecidableEq, Repr

/-- `name.replace(" ", "_")`. -/
def sanitize (s : String) : String := s.replace " " "_"

/-- Python `f"{n:0wd}"` for a natural number. -/
def padNat (w : Nat) (n : Nat) : String :=
  let s := toString n
  if w ≤ s.length then s
  else String.mk (List.replicate (w - s.length) '0') ++ s

/-- Python `f"{n:0wd}"` for an integer (sign counts toward the width). -/
def padInt (w : Nat) (n : Int) : String :=
  if n < 0 then "-" ++ padNat (w - 1) n.natAbs else padNat w n.toNat

/-- `dict.setdefault(key, []).append(path)` on an insertion-ordered map. -/
def appendFramePath (fps : List ((Nat × Nat) × List String)) (key : Nat × Nat)
    (path : String) : List ((Nat × Nat) × List String) :=
  if fps.any (fun e => e.1 == key) then
    fps.map (fun e => if e.1 == key then (e.1, e.2 ++ [path]) else e)
  else fps ++ [(key, [path])]

/-- `SGG_OT_execute_batch._render_frame` (batch_rendering.py): bind the
entry's action to the armature (creating animation data if absent), set
the scene frame, temporarily override the render filepath, invoke the
external render (which may raise — in that case the error propagates with
the overridden filepath and mutated frame/action left in place), record
the measured duration, restore the filepath, and file the output path
under `(action_index, direction_index)`. -/
def render_frame (ora : RenderOracle) (w : World) (action_plan : ActionExecPlan)
    (direction_index : Nat) (frame : Int) : Except World World :=
  let arm_obj := action_plan.armature_obj
  let action := action_plan.action
  let scene1 := setAnimAction (animDataCreate w.scene arm_obj.id) arm_obj.id
    (some action.id)
  let scene2 := { scene1 with frame_current := frame }
  let filename := sanitize arm_obj.name ++ "_" ++ sanitize action.name
    ++ "_dir" ++ padNat 2 direction_index ++ "_frame" ++ padInt 4 frame ++ ".png"
  let filepath := w.op.output_dir ++ "/" ++ filename
  let old_filepath := scene2.render_filepath
  let scene3 := { scene2 with render_filepath := filepath }
  if ora.fails w.renders_done then
    Except.error { w with scene := scene3 }
  else
    let elapsed := ora.time w.renders_done
    let scene4 := { scene3 with render_filepath := old_filepath }
    let settings1 := { w.settings with last_frame_render_seconds := elapsed }
    let fps := appendFramePath w.op.frame_paths (w.op.action_index, direction_index) filepath
    let op1 := { w.op with frame_paths := fps }
    Except.ok { w with scene := scene4, settings := settings1, op := op1, renders_done := w.renders_done + 1 }

/-- View of the operator's iteration fields as a `DriverCursor`. -/
def opCursor (op : OpState) (plan : BatchExecPlan) : DriverCursor :=
  DriverCursor.mk plan op.action_index op.direction_index op.frame_iter
    op.current_action_plan

/-- Write a cursor's fields back into the operator state. -/
def setCursor (op : OpState) (c : DriverCursor) : OpState :=
  { op with action_index := c.action_index, direction_index := c.direction_index, frame_iter := c.frame_iter, current_action_plan := c.current_action_plan }

/-- `SGG_OT_execute_batch._advance_step`: pull the next work unit (the
cursor mutation happens inside `_next_frame`); `false` when there is no
more work, else render the unit. -/
def advance_step (ora : RenderOracle) (w : World) (plan : BatchExecPlan) :
    Except World (Bool × World) :=
  match nextFrame (opCursor w.op plan) with
  | (none, c) => Except.ok (false, { w with op := setCursor w.op c })
  | (some (ap, d, f), c) =>
    let w1 := { w with op := setCursor w.op c }
    (render_frame ora w1 ap d f).map (fun w2 => (true, w2))

/-- Driver-level effect of `SGG_OT_execute_batch._assemble_spritesheets`:
one sheet file per action index holding at least one recorded frame path
(grouping, image loading and pixel composition are modelled separately by
`assembleGroup`; here only which files get written matters — the function
touches no scene state). -/
def assemble_spritesheets (w : World) (plan : BatchExecPlan) : World :=
  let actionIdxs := ((w.op.frame_paths.filter (fun e => ! e.2.isEmpty)).map
    (fun e => e.1.1)).foldl (fun acc i => if i ∈ acc then acc else acc ++ [i]) []
  let sheets := actionIdxs.filterMap (fun ai =>
    if ai < plan.actions.length then
      some (w.op.output_dir ++ "/"
        ++ sanitize (plan.actions.getD ai default).armature_obj.name ++ "_"
        ++ sanitize (plan.actions.getD ai default).action.name ++ "_sheet.png")
    else none)
  { w with sheets_written := w.sheets_written ++ sheets }

/-- The action-restoration loop of `_finish_batch`: for each snapshotted
armature, if it (still/now) has animation data, set its action back to the
snapshot value. -/
def restoreActions (entries : List (Nat × Option Nat)) (sc : SceneState) :
    SceneState :=
  entries.foldl (fun sc e =>
    match lookupAnim sc.anim_data e.1 with
    | some _ => setAnimAction sc e.1 e.2
    | none => sc) sc

/-- `SGG_OT_execute_batch._finish_batch`: assemble sheets unless cancelled,
restore the frame pointer, the render filepath and each snapshotted
armature's active action (only where animation data exists), drop the
timer and clear the plan references.  The `hasattr` guards of the source
always pass here because `finish_batch` only runs after `execute`. -/
def finish_batch (w : World) (cancelled : Bool) : World :=
  let w1 := if cancelled then w else
    match w.op.plan with
    | some plan => assemble_spritesheets w plan
    | none => w
  let scene2 := { w1.scene with frame_current := w1.op.original_frame, render_filepath := w1.op.original_filepath }
  let scene3 := restoreActions w1.op.original_actions scene2
  let op1 := { w1.op with timer := false, plan := none, frame_iter := none, current_action_plan := none, frame_paths := ([] : List ((Nat × Nat) × List String)) }
  { w1 with scene := scene3, op := op1 }

/-- Host events the modal handler receives. -/
inductive BEvent where
  | ESC
  | TIMER
  | OTHER
  deriving DecidableEq, Repr

/-- Return values of the modal handler. -/
inductive ModalResult where
  | RUNNING_MODAL
  | FINISHED
  | CANCELLED
  | PASS_THROUGH
  deriving DecidableEq, Repr

/-- `SGG_OT_execute_batch.modal` (batch_rendering.py): ESC cancels
(finishing with restoration, no sheets); non-timer events pass through;
a timer event performs one unit of work, finishing the batch when the
plan is exhausted.  A render failure propagates as `Except.error`
without reaching `_finish_batch`. -/
def modal (ora : RenderOracle) (w : World) (ev : BEvent) :
    Except World (ModalResult × World) :=
  match ev with
  | BEvent.ESC => Except.ok (ModalResult.CANCELLED, finish_batch w true)
  | BEvent.OTHER => Except.ok (ModalResult.PASS_THROUGH, w)
  | BEvent.TIMER =>
    match w.op.plan with
    | none => Except.ok (ModalResult.CANCELLED, finish_batch w true)
    | some plan =>
      match advance_step ora w plan with
      | Except.error werr => Except.error werr
      | Except.ok (false, w1) =>
        Except.ok (ModalResult.FINISHED, finish_batch w1 false)
      | Except.ok (true, w1) => Except.ok (ModalResult.RUNNING_MODAL, w1)

/-- Snapshot of the active action per distinct armature of the plan, in
plan order (`execute`'s `self._original_actions` dict). -/
def snapshotOriginalActions (scene : SceneState) :
    List ActionExecPlan → List (Nat × Option Nat) → List (Nat × Option Nat)
  | [], acc => acc
  | ap :: rest, acc =>
    if acc.any (fun e => e.1 == ap.armature_obj.id) then
      snapshotOriginalActions scene rest acc
    else
      snapshotOriginalActions scene rest
        (acc ++ [(ap.armature_obj.id, adActionOrNone scene ap.armature_obj.id)])

/-- `SGG_OT_execute_batch.execute` (batch_rendering.py): build the plan
with `BatchExecPlan.from_scene`; cancel when it has no entries; otherwise
snapshot the scene state to be mutated, reset the cursors, register the
timer and go modal.  Directory creation and reporting are external. -/
def execute (output_dir : String) (w : World)
    (plan_armatures : List SGG_ArmaturePlanItem) (directions frame_step : Int) :
    ModalResult × World :=
  let plan := BatchExecPlan.from_scene plan_armatures directions frame_step
  if plan.actions.isEmpty then (ModalResult.CANCELLED, w)
  else
    let op1 := OpState.mk (some plan) 0 0 none none w.scene.frame_current w.scene.render_filepath (snapshotOriginalActions w.scene plan.actions []) output_dir [] true
    (ModalResult.RUNNING_MODAL, { w with op := op1 })

/-- Outcome of running the driver against a list of host events. -/
inductive RunOutcome where
  | notStarted (w : World)
  | stillRunning (w : World)
  | finished (w : World)
  | cancelled (w : World)
  | raised (w : World)
  deriving DecidableEq, Repr

/-- Feed events to the modal handler until a terminal result, an
exception, or the end of the event list. -/
def runEvents (ora : RenderOracle) : List BEvent → World → RunOutcome
  | [], w => RunOutcome.stillRunning w
  | ev :: rest, w =>
    match modal ora w ev with
    | Except.error werr => RunOutcome.raised werr
    | Except.ok (ModalResult.RUNNING_MODAL, w1) => runEvents ora rest w1
    | Except.ok (ModalResult.PASS_THROUGH, w1) => runEvents ora rest w1
    | Except.ok (ModalResult.FINISHED, w1) => RunOutcome.finished w1
    | Except.ok (ModalResult.CANCELLED, w1) => RunOutcome.cancelled w1

/-- A complete driver run: `execute` followed by the host event stream. -/
def runDriver (ora : RenderOracle) (output_dir : String) (w0 : World)
    (plan_armatures : List SGG_ArmaturePlanItem) (directions frame_step : Int)
    (events : List BEvent) : RunOutcome :=
  match execute output_dir w0 plan_armatures directions frame_step with
  | (ModalResult.CANCELLED, w) => RunOutcome.notStarted w
  | (_, w1) => runEvents ora events w1

/-- The world carried by any outcome. -/
def outcomeWorld : RunOutcome → World
  | RunOutcome.notStarted w => w
  | RunOutcome.stillRunning w => w
  | RunOutcome.finished w => w
  | RunOutcome.cancelled w => w
  | RunOutcome.raised w => w

def isFinished : RunOutcome → Bool
  | RunOutcome.finished _ => true
  | _ => false

def isCancelled : RunOutcome → Bool
  | RunOutcome.cancelled _ => true
  | _ => false

def isRaised : RunOutcome → Bool
  | RunOutcome.raised _ => true
  | _ => false

/-- A one-armature, one-action planning state with frames `[1, 2]`,
used by the concrete driver checks below. -/
def testArm : BArmature := BArmature.mk 7 "My Arm" "ARMATURE" none

def testAct : BAction := BAction.mk 3 "Walk" 1 2

def testPS : List SGG_ArmaturePlanItem :=
  [SGG_ArmaturePlanItem.mk true true "My Arm" (some testArm)
    [SGG_ActionPlanItem.mk true "Walk" 1 2 (some testAct) false]]

def testWorld : World :=
  World.mk (SceneState.mk 0 "orig.png" []) (Settings.mk 0 0 0 false)
    (OpState.mk none 0 0 none none 0 "" [] "" [] false) [] 0

def okOracle : RenderOracle := RenderOracle.mk (fun _ => false) (fun k => (k : Int) + 10)

/-- An oracle whose render invocation always raises. -/
def failOracle : RenderOracle := RenderOracle.mk (fun _ => true) (fun _ => 0)

/-- The world right after a successful `execute`: plan installed, cursors
reset, pre-run frame/filepath/actions snapshotted, timer registered. -/
def executedWorld (output_dir : String) (w0 : World) (plan : BatchExecPlan) : World :=
  { w0 with op := OpState.mk (some plan) 0 0 none none w0.scene.frame_current w0.scene.render_filepath (snapshotOriginalActions w0.scene plan.actions []) output_dir [] true }

/-- Python slice assignment `dst[start:stop] = src` on a list. -/
def pySliceAssign (dst : List Int) (start stop : Nat) (src : List Int) : List Int :=
  dst.take start ++ src ++ dst.drop stop

/-- A loaded frame image: width, height and its RGBA float buffer
(`width * height * 4` values, bottom-left origin, modelled over `Int`). -/
def FrameImg : Type := Nat × Nat × List Int

/-- The per-frame row-copy loop of `_assemble_spritesheets`: copy each of
the `frame_h` pixel rows of a frame into the sheet buffer at destination
band `dest_row`, column `col_idx`. -/
def copyFrame (sheet : List Int) (sheet_w frame_w frame_h dest_row col_idx : Nat)
    (frame_pixels : List Int) : List Int :=
  (List.range frame_h).foldl (fun sp fy =>
    let sy := dest_row * frame_h + fy
    let frame_row_start := fy * frame_w * 4
    let sheet_row_start := (sy * sheet_w + col_idx * frame_w) * 4
    let sheet_row_end := sheet_row_start + frame_w * 4
    pySliceAssign sp sheet_row_start sheet_row_end
      ((frame_pixels.drop frame_row_start).take (frame_w * 4))) sheet

def insertSorted (x : Nat) : List Nat → List Nat
  | [] => [x]
  | y :: ys => if x ≤ y then x :: y :: ys else y :: insertSorted x ys

/-- Python's `sorted` on a list of keys. -/
def sortNat (l : List Nat) : List Nat := l.foldr insertSorted []

/-- The per-action composition loop of `_assemble_spritesheets`, after
image loading: from one action's direction dictionary (direction index to
loaded frames, distinct keys), infer the frame size from the first frame
of the lowest direction, size the sheet as `frame_w * cols` by
`frame_h * rows`, and copy every frame into destination band
`rows - 1 - row_idx`, column `col_idx`; `none` models the `continue`
cases (no directions, no first frame, zero frames). -/
def assembleGroup (dirs : List (Nat × List FrameImg)) :
    Option (Nat × Nat × List Int) :=
  let direction_indices := sortNat (dirs.map Prod.fst)
  match direction_indices with
  | [] => none
  | first_dir :: _ =>
    match ((dirs.find? (fun e => e.1 == first_dir)).map Prod.snd).getD [] with
    | [] => none
    | fimg :: _ =>
      let frame_w := fimg.1
      let frame_h := fimg.2.1
      let max_frames := (dirs.map (fun e => e.2.length)).foldl max 0
      if max_frames = 0 then none
      else
        let cols := max_frames
        let rows := direction_indices.length
        let sheet_w := frame_w * cols
        let sheet_h := frame_h * rows
        let init := List.replicate (sheet_w * sheet_h * 4) (0 : Int)
        let sheet := direction_indices.enum.foldl (fun sp p =>
          let row_idx := p.1
          let dir_idx := p.2
          let frame_paths := ((dirs.find? (fun e => e.1 == dir_idx)).map Prod.snd).getD []
          frame_paths.enum.foldl (fun sp2 q =>
            let col_idx := q.1
            if cols ≤ col_idx then sp2
            else
              let dest_row := rows - 1 - row_idx
              copyFrame sp2 sheet_w frame_w frame_h dest_row col_idx q.2.2.2) sp) init
        some (sheet_w, sheet_h, sheet)

/-- The unrolled copy sequence `assembleGroup` performs on a
2-direction × 3-frame group of uniform 4×4 frames with per-direction
buffers `P` (direction 0) and `Q` (direction 1): direction 0 lands in
destination band 1, direction 1 in destination band 0. -/
def sheeted (P Q : List Int) : List Int :=
  copyFrame (copyFrame (copyFrame (copyFrame (copyFrame (copyFrame
    (List.replicate 384 0) 12 4 4 1 0 P) 12 4 4 1 1 P) 12 4 4 1 2 P)
    12 4 4 0 0 Q) 12 4 4 0 1 Q) 12 4 4 0 2 Q

/-! ### Run invariant and restoration property -/

/-- Invariant of a running batch, relative to the pre-run world `w0`:
the plan is held, the snapshots record the pre-run values, every armature
of the plan is snapshotted (with distinct keys), and animation data only
ever gets created, never removed. -/
def RunInv (w0 : World) (plan : BatchExecPlan) (w : World) : Prop :=
  w.op.plan = some plan ∧
  w.op.original_frame = w0.scene.frame_current ∧
  w.op.original_filepath = w0.scene.render_filepath ∧
  (∀ e ∈ w.op.original_actions, e.2 = adActionOrNone w0.scene e.1) ∧
  (∀ ap ∈ plan.actions, ∃ e ∈ w.op.original_actions, e.1 = ap.armature_obj.id) ∧
  (w.op.original_actions.map Prod.fst).Nodup ∧
  (∀ id, lookupAnim w0.scene.anim_data id ≠ none →
    lookupAnim w.scene.anim_data id ≠ none)

/-- The claim's restoration property: frame pointer, output filepath, and
every plan armature's active action binding equal their pre-run values. -/
def Restored (w0 : World) (plan : BatchExecPlan) (w : World) : Prop :=
  w.scene.frame_current = w0.scene.frame_current ∧
  w.scene.render_filepath = w0.scene.render_filepath ∧
  ∀ ap ∈ plan.actions,
    adActionOrNone w.scene ap.armature_obj.id
      = adActionOrNone w0.scene ap.armature_obj.id

theorem exec_sanity_1 : (FrameRangePlan.mk 1 5 2).frames = [1, 3, 5] := by decide

theorem exec_sanity_2 : (FrameRangePlan.mk 1 5 1).frames = [1, 2, 3, 4, 5] := by decide

theorem exec_sanity_3 : (FrameRangePlan.mk 5 1 1).frames = [] := by decide

theorem exec_sanity_4 : (FrameRangePlan.mk 1 5 0).frames = [1, 2, 3, 4, 5] := by decide

theorem exec_sanity_5 : (FrameRangePlan.mk 1 6 2).frames = [1, 3, 5] := by decide

theorem exec_sanity_6 : (FrameRangePlan.mk 3 3 7).frames = [3] := by decide

/-- C8: for every `(start, end, step)`: if `end < start` the frame sequence is
empty; and for `start ≤ end`, `step ≥ 1`, the sequence is exactly
`start, start + step, ...` (bounded above by `end`), strictly increasing,
of length `((end - start) // step) + 1`. -/
theorem C8_frameRange_frames (s e st : Int) :
    (e < s → (FrameRangePlan.mk s e st).frames = []) ∧
    (s ≤ e → 1 ≤ st →
      (FrameRangePlan.mk s e st).frames =
        (List.range ((e - s).toNat / st.toNat + 1)).map (fun i : Nat => s + st * (i : Int)) ∧
      ((FrameRangePlan.mk s e st).frames.length : Int) = (e - s) / st + 1 ∧
      List.Pairwise (· < ·) (FrameRangePlan.mk s e st).frames ∧
      ∀ f ∈ (FrameRangePlan.mk s e st).frames, s ≤ f ∧ f ≤ e) := by
  constructor
  · intro h
    simp [FrameRangePlan.frames, h]
  · intro hse hst
    have hnlt : ¬ e < s := not_lt.mpr hse
    have hmax : max 1 st = st := max_eq_right hst
    have hstpos : (0 : Int) < st := lt_of_lt_of_le one_pos hst
    have hnn : (0 : Int) ≤ e - s := sub_nonneg.mpr hse
    have hframes : (FrameRangePlan.mk s e st).frames =
        (List.range ((e - s).toNat / st.toNat + 1)).map (fun i : Nat => s + st * (i : Int)) := by
      simp [FrameRangePlan.frames, hnlt, hmax]
    refine ⟨hframes, ?_, ?_, ?_⟩
    · rw [hframes]
      simp only [List.length_map, List.length_range]
      push_cast
      rw [Int.toNat_of_nonneg hnn, Int.toNat_of_nonneg (le_of_lt hstpos)]
    · rw [hframes, List.pairwise_map]
      refine (List.pairwise_lt_range _).imp ?_
      intro a b hab
      have : (a : Int) < b := Int.ofNat_lt.mpr hab
      have := mul_lt_mul_of_pos_left this hstpos
      omega
    · intro f hf
      rw [hframes] at hf
      obtain ⟨i, hi, rfl⟩ := List.mem_map.mp hf
      rw [List.mem_range] at hi
      have hi' : i ≤ (e - s).toNat / st.toNat := Nat.lt_succ_iff.mp hi
      have hmul : st.toNat * i ≤ (e - s).toNat := by
        calc st.toNat * i ≤ st.toNat * ((e - s).toNat / st.toNat) :=
              Nat.mul_le_mul_left _ hi'
          _ ≤ (e - s).toNat := Nat.mul_div_le _ _
      have hcast : (st.toNat : Int) * (i : Int) ≤ ((e - s).toNat : Int) := by
        exact_mod_cast hmul
      rw [Int.toNat_of_nonneg hnn, Int.toNat_of_nonneg (le_of_lt hstpos)] at hcast
      constructor
      · have : (0 : Int) ≤ st * i := mul_nonneg (le_of_lt hstpos) (Int.ofNat_nonneg i)
        omega
      · omega

/-- Helper: one inner step of `from_scene` appends that clip-entry's
contribution (empty when ineligible). -/
theorem fromSceneInnerStep_eq (arm_obj : BArmature) (step : Int)
    (acc : List ActionExecPlan) (c : SGG_ActionPlanItem) :
    fromSceneInnerStep arm_obj step acc c
      = acc ++ (if clipEligible c then [specEntryOf arm_obj step c] else []) := by
  rcases hc : c.action with _ | act
  · rcases he : c.enabled with _ | _ <;>
      simp [fromSceneInnerStep, clipEligible, hc, he]
  · rcases he : c.enabled with _ | _
    · simp [fromSceneInnerStep, clipEligible, hc, he]
    · by_cases hlt : c.frame_end < c.frame_start
      · have hle : ¬ (c.frame_start ≤ c.frame_end) := by omega
        simp [fromSceneInnerStep, clipEligible, hc, he, hlt, hle]
      · have hle : c.frame_start ≤ c.frame_end := by omega
        simp [fromSceneInnerStep, clipEligible, hc, he, hlt, hle, specEntryOf]

/-- Helper: the inner action fold of `from_scene` appends the per-armature
eligible entries. -/
theorem from_scene_inner_fold (arm_obj : BArmature) (step : Int)
    (cs : List SGG_ActionPlanItem) (acc : List ActionExecPlan) :
    cs.foldl (fromSceneInnerStep arm_obj step) acc
      = acc ++ (cs.filter clipEligible).map (specEntryOf arm_obj step) := by
  induction cs generalizing acc with
  | nil => simp
  | cons c cs ih =>
    rw [List.foldl_cons, ih, fromSceneInnerStep_eq, List.filter_cons]
    by_cases hc : clipEligible c <;> simp [hc]

/-- Helper: one outer step of `from_scene` appends that subject-entry's
contribution (empty when ineligible). -/
theorem fromSceneOuterStep_eq (step : Int) (acc : List ActionExecPlan)
    (s : SGG_ArmaturePlanItem) :
    fromSceneOuterStep step acc s
      = acc ++ (if subjectEligible s then
          (s.actions.filter clipEligible).map
            (specEntryOf (s.armature.getD default) step) else []) := by
  rcases ha : s.armature with _ | arm_obj
  · rcases he : s.enabled with _ | _ <;>
      simp [fromSceneOuterStep, subjectEligible, ha, he]
  · rcases he : s.enabled with _ | _
    · simp [fromSceneOuterStep, subjectEligible, ha, he]
    · by_cases ht : arm_obj.type = "ARMATURE"
      · have hel : subjectEligible s = true := by
          simp [subjectEligible, ha, he, ht]
        have hstep : fromSceneOuterStep step acc s
            = s.actions.foldl (fromSceneInnerStep arm_obj step) acc := by
          simp [fromSceneOuterStep, he, ha, ht]
        rw [hstep, from_scene_inner_fold, hel, if_pos rfl]
        simp [ha]
      · simp [fromSceneOuterStep, subjectEligible, ha, he, ht]

/-- C6: for every planning state, direction count and frame step, the built
Execution Plan has exactly the eligible (enabled subject with valid
armature, enabled clip with valid action, `frame_end ≥ frame_start`)
entries, in stable planning-state order, each with frame range
`(frame_start, frame_end, max 1 step)`; the plan's direction count is
`max 1 directions`; the entry count is the sum over eligible subjects of
their eligible clip counts.  (`from_scene` is a total Lean function, so
building never raises, and the zero-entry plan is an ordinary value.) -/
theorem C6_from_scene_spec (ps : List SGG_ArmaturePlanItem)
    (directions frame_step : Int) :
    (BatchExecPlan.from_scene ps directions frame_step).actions
        = specPlanEntries ps (max 1 frame_step) ∧
    (BatchExecPlan.from_scene ps directions frame_step).directions
        = max 1 directions ∧
    1 ≤ (BatchExecPlan.from_scene ps directions frame_step).directions ∧
    (BatchExecPlan.from_scene ps directions frame_step).actions.length
        = ((ps.filter subjectEligible).map
            (fun s => (s.actions.filter clipEligible).length)).sum := by
  have hmain : ∀ acc : List ActionExecPlan,
      ps.foldl (fromSceneOuterStep (max 1 frame_step)) acc
        = acc ++ specPlanEntries ps (max 1 frame_step) := by
    induction ps with
    | nil => intro acc; simp [specPlanEntries]
    | cons s rest ih =>
      intro acc
      rw [List.foldl_cons, ih, fromSceneOuterStep_eq]
      by_cases hs : subjectEligible s <;>
        simp [specPlanEntries, List.filter_cons, hs]
  have h1 : (BatchExecPlan.from_scene ps directions frame_step).actions
      = specPlanEntries ps (max 1 frame_step) := by
    simpa [BatchExecPlan.from_scene] using hmain []
  refine ⟨h1, rfl, le_max_left 1 directions, ?_⟩
  rw [h1]
  simp [specPlanEntries, Function.comp_def]

theorem dirsFrom_ge (dD : Nat) (a : ActionExecPlan) (d : Nat) (h : dD ≤ d) :
    dirsFrom dD a d = [] := by
  simp [dirsFrom, Nat.sub_eq_zero_of_le h]

theorem dirsFrom_cons (dD : Nat) (a : ActionExecPlan) (d : Nat) (h : d < dD) :
    dirsFrom dD a d
      = a.frame_range.frames.map (fun f => (a, d, f)) ++ dirsFrom dD a (d + 1) := by
  have h1 : dD - d = (dD - (d + 1)) + 1 := by omega
  rw [dirsFrom, h1]
  rw [show List.range' d ((dD - (d + 1)) + 1) = d :: List.range' (d + 1) (dD - (d + 1)) by
    simpa using List.range'_succ d (dD - (d + 1)) 1]
  rw [List.flatMap_cons]
  rfl

theorem dirsFrom_empty (dD : Nat) (a : ActionExecPlan) (d : Nat)
    (h : a.frame_range.frames = []) : dirsFrom dD a d = [] := by
  simp [dirsFrom, h]

theorem flattenFrom_ge (plan : BatchExecPlan) (ai : Nat)
    (h : plan.actions.length ≤ ai) : flattenFrom plan ai = [] := by
  simp [flattenFrom, List.drop_eq_nil_of_le h]

theorem flattenFrom_lt (plan : BatchExecPlan) (ai : Nat)
    (h : ai < plan.actions.length) :
    flattenFrom plan ai
      = dirsFrom plan.directions.toNat (plan.actions.getD ai default) 0
        ++ flattenFrom plan (ai + 1) := by
  rw [flattenFrom, List.drop_eq_getElem_cons h, List.flatMap_cons,
    List.getD_eq_getElem plan.actions default h]
  rfl

theorem fuel_prod_step (len ai K : Nat) (h : ai < len) :
    (len + 1 - min ai (len + 1)) * K = (len + 1 - min (ai + 1) (len + 1)) * K + K := by
  have h1 : min (ai + 1) (len + 1) = ai + 1 := by omega
  have h2 : min ai (len + 1) = ai := by omega
  have h3 : len + 1 - ai = (len - ai) + 1 := by omega
  have h4 : len + 1 - (ai + 1) = len - ai := by omega
  rw [h1, h2, h3, h4, Nat.add_mul, one_mul]

/-- Specification of the post-load half of a `_next_frame` loop pass: it
never reports exhaustion, a yielded unit is the head of the remaining-work
list, and a `continue` keeps the remaining-work list while strictly
decreasing the fuel measure. -/
theorem passAfterLoad_spec (s : DriverCursor) (cur : ActionExecPlan)
    (hcur : s.current_action_plan = some cur)
    (hai : s.action_index < s.plan.actions.length) :
    match passAfterLoad s cur with
    | PassResult.yield item s' => s'.plan = s.plan ∧ CursorInv s' ∧
        remainingUnits s = item :: remainingUnits s'
    | PassResult.done _ => False
    | PassResult.again s' => s'.plan = s.plan ∧ CursorInv s' ∧
        remainingUnits s' = remainingUnits s ∧ cursorFuel s' < cursorFuel s := by
  by_cases hD : (s.direction_index : Int) ≥ s.plan.directions
  · have hdd : s.plan.directions.toNat ≤ s.direction_index := Int.toNat_le.mpr hD
    simp only [passAfterLoad, hD, if_true, ge_iff_le, le_refl, if_pos]
    refine ⟨trivial, ?_, ?_, ?_⟩
    · intro h; simp at h
    · simp [remainingUnits, hcur, hdd]
    · simp only [cursorFuel, hcur, Option.isNone_some, Option.isNone_none]
      have hps := fuel_prod_step s.plan.actions.length s.action_index
        (2 * s.plan.directions.toNat + 3) hai
      simp only [Bool.false_eq_true, if_false, if_true]
      omega
  · have hdi : s.direction_index < s.plan.directions.toNat := by
      rw [not_le] at hD
      exact Int.lt_toNat.mpr hD
    have hddn : ¬ s.plan.directions.toNat ≤ s.direction_index := by omega
    rcases hiter : s.frame_iter with _ | it
    · rcases hfr : cur.frame_range.frames with _ | ⟨f, rest⟩
      · -- no iterator yet and the range is empty: advance the direction
        simp only [passAfterLoad, hD, if_false, hiter, hfr]
        refine ⟨trivial, fun _ => hai, ?_, ?_⟩
        · simp only [remainingUnits, hcur, hddn, if_false, hiter]
          by_cases h2 : s.plan.directions.toNat ≤ s.direction_index + 1
          · simp [h2, dirsFrom_empty _ _ _ hfr]
          · simp [h2, dirsFrom_empty _ _ _ hfr]
        · simp only [cursorFuel, hcur, Option.isNone_some]
          omega
      · -- no iterator yet, nonempty range: yield the first frame
        simp only [passAfterLoad, hD, if_false, hiter, hfr]
        refine ⟨trivial, fun _ => hai, ?_⟩
        simp only [remainingUnits, hcur, hddn, if_false, hiter]
        rw [dirsFrom_cons _ _ _ hdi, hfr]
        simp [List.append_assoc]
    · rcases hit : it with _ | ⟨f, rest⟩
      · -- exhausted iterator: advance the direction
        simp only [passAfterLoad, hD, if_false, hiter, hit]
        refine ⟨trivial, fun _ => hai, ?_, ?_⟩
        · simp only [remainingUnits, hcur, hddn, if_false, hiter, hit]
          by_cases h2 : s.plan.directions.toNat ≤ s.direction_index + 1
          · simp [h2, dirsFrom_ge _ _ _ h2]
          · simp [h2]
        · simp only [cursorFuel, hcur, Option.isNone_some]
          omega
      · -- live iterator: yield its next frame
        simp only [passAfterLoad, hD, if_false, hiter, hit]
        refine ⟨trivial, fun _ => hai, ?_⟩
        simp only [remainingUnits, hcur, hddn, if_false, hiter, hit]
        simp [List.append_assoc]

/-- Specification of one full `_next_frame` loop pass from any
well-formed cursor. -/
theorem nextFramePass_spec (s : DriverCursor) (hInv : CursorInv s) :
    match nextFramePass s with
    | PassResult.yield item s' => s'.plan = s.plan ∧ CursorInv s' ∧
        remainingUnits s = item :: remainingUnits s'
    | PassResult.done s' => s' = s ∧ remainingUnits s = []
    | PassResult.again s' => s'.plan = s.plan ∧ CursorInv s' ∧
        remainingUnits s' = remainingUnits s ∧ cursorFuel s' < cursorFuel s := by
  rcases hcur : s.current_action_plan with _ | cur
  · by_cases hlen : s.plan.actions.length ≤ s.action_index
    · have hpass : nextFramePass s = PassResult.done s := by
        simp [nextFramePass, hcur, hlen]
      rw [hpass]
      exact ⟨rfl, by simp [remainingUnits, hcur, flattenFrom_ge _ _ hlen]⟩
    · have hai : s.action_index < s.plan.actions.length := by omega
      set cur := s.plan.actions.getD s.action_index default with hcurdef
      set s1 : DriverCursor := ({ s with current_action_plan := some cur, direction_index := 0, frame_iter := none } : DriverCursor) with hs1
      have hpass0 : nextFramePass s = passAfterLoad s1 cur := by
        simp [nextFramePass, hcur, hlen, hs1, hcurdef]
      have hrem : remainingUnits s1 = remainingUnits s := by
        simp only [remainingUnits, hcur, hs1]
        rw [flattenFrom_lt s.plan s.action_index hai]
        by_cases h2 : s.plan.directions.toNat ≤ 0
        · have h0 : s.plan.directions.toNat = 0 := by omega
          simp [h2, h0, dirsFrom_ge _ _ _ (le_refl 0), hcurdef]
        · simp [h2, hcurdef]
      have hfuel : cursorFuel s1 < cursorFuel s := by
        simp only [cursorFuel, hs1, hcur, Option.isNone_some, Option.isNone_none]
        simp only [Bool.false_eq_true, if_false, if_true]
        omega
      have hplan1 : s1.plan = s.plan := rfl
      have hspec := passAfterLoad_spec s1 cur rfl hai
      rw [hpass0]
      rcases hpass : passAfterLoad s1 cur with ⟨item, s'⟩ | s' | s' <;>
        rw [hpass] at hspec
      · exact ⟨hspec.1, hspec.2.1, by rw [← hrem]; exact hspec.2.2⟩
      · exact hspec.elim
      · exact ⟨hspec.1, hspec.2.1, by rw [hspec.2.2.1, hrem],
          lt_trans hspec.2.2.2 hfuel⟩
  · have hai : s.action_index < s.plan.actions.length := hInv (by simp [hcur])
    have hpass : nextFramePass s = passAfterLoad s cur := by
      simp [nextFramePass, hcur]
    have hspec := passAfterLoad_spec s cur hcur hai
    rcases hpl : passAfterLoad s cur with ⟨item, s'⟩ | s' | s' <;>
      rw [hpl] at hspec <;> rw [hpass, hpl]
    · exact hspec
    · exact hspec.elim
    · exact hspec

/-- The fueled `_next_frame` run never exhausts fuel `> cursorFuel s`: it
returns the head of the remaining-work list and a successor cursor whose
remaining work is the tail. -/
theorem nextFrameAux_spec (fuel : Nat) :
    ∀ s : DriverCursor, cursorFuel s < fuel → CursorInv s →
    ∃ s', nextFrameAux fuel s = some ((remainingUnits s).head?, s')
      ∧ remainingUnits s' = (remainingUnits s).tail
      ∧ CursorInv s' ∧ s'.plan = s.plan := by
  induction fuel using Nat.strong_induction_on with
  | _ fuel ih =>
    intro s hfuel hinv
    rcases hf : fuel with _ | f
    · omega
    · subst hf
      have hspec := nextFramePass_spec s hinv
      rcases hpass : nextFramePass s with ⟨item, s'⟩ | s' | s' <;>
        rw [hpass] at hspec
      · refine ⟨s', ?_, ?_, hspec.2.1, hspec.1⟩
        · rw [hspec.2.2]
          simp [nextFrameAux, hpass]
        · rw [hspec.2.2]
          rfl
      · obtain ⟨heq, hrem⟩ := hspec
        rw [heq] at hpass
        refine ⟨s, ?_, ?_, hinv, rfl⟩
        · simp [nextFrameAux, hpass, hrem]
        · rw [hrem]
          rfl
      · have hf2 : cursorFuel s' < f := by
          have := hspec.2.2.2
          omega
        obtain ⟨s'', h1, h2, h3, h4⟩ := ih f (by omega) s' hf2 hspec.2.1
        refine ⟨s'', ?_, ?_, h3, h4.trans hspec.1⟩
        · rw [show nextFrameAux (f + 1) s = nextFrameAux f s' by
            simp [nextFrameAux, hpass]]
          rw [h1, hspec.2.2.1]
        · rw [h2, hspec.2.2.1]

/-- The total `_next_frame` yields the head of the remaining-work list; the
successor cursor's remaining work is the tail. -/
theorem nextFrame_spec (s : DriverCursor) (hinv : CursorInv s) :
    ∃ s', nextFrame s = ((remainingUnits s).head?, s')
      ∧ remainingUnits s' = (remainingUnits s).tail
      ∧ CursorInv s' ∧ s'.plan = s.plan := by
  obtain ⟨s', h1, h2, h3, h4⟩ :=
    nextFrameAux_spec (cursorFuel s + 1) s (by omega) hinv
  exact ⟨s', by simp [nextFrame, h1], h2, h3, h4⟩

theorem collectUnits_spec (n : Nat) :
    ∀ s : DriverCursor, CursorInv s → (remainingUnits s).length < n →
    collectUnits n s = some (remainingUnits s) := by
  induction n with
  | zero =>
    intro s _ h
    omega
  | succ n ih =>
    intro s hinv hlen
    obtain ⟨s', h1, h2, h3, _⟩ := nextFrame_spec s hinv
    rcases hrem : remainingUnits s with _ | ⟨item, rest⟩
    · rw [hrem] at h1
      simp only [List.head?_nil] at h1
      simp [collectUnits, h1, hrem]
    · rw [hrem] at h1 h2
      simp only [List.head?_cons, List.tail_cons] at h1 h2
      have hrec := ih s' h3 (by rw [h2]; rw [hrem] at hlen; simpa using hlen)
      rw [h2] at hrec
      simp [collectUnits, h1, hrec, hrem]

theorem initCursor_inv (plan : BatchExecPlan) : CursorInv (initCursor plan) := by
  intro h
  simp [initCursor] at h

theorem remainingUnits_init (plan : BatchExecPlan) :
    remainingUnits (initCursor plan) = nestedTriples plan := by
  simp only [remainingUnits, initCursor, flattenFrom, List.drop_zero, nestedTriples]
  congr 1
  funext a
  simp only [dirsFrom, Nat.sub_zero, List.range_eq_range']

theorem nestedTriples_length (acts : List ActionExecPlan) (dD : Nat) :
    (acts.flatMap (fun a => (List.range dD).flatMap (fun d =>
        a.frame_range.frames.map (fun f => (a, d, f))))).length
      = (acts.map (fun a => dD * a.frame_range.frames.length)).sum := by
  induction acts with
  | nil => simp
  | cons a rest ih =>
    simp only [List.flatMap_cons, List.length_append, ih, List.map_cons,
      List.sum_cons]
    congr 1
    simp [List.length_flatMap, Function.comp_def]

/-- C1: from the initial cursors, successive `_next_frame` calls produce
exactly the triple-nested sequence (entries in plan order, directions
`0..D-1`, frames in range order), and the number of work units until
exhaustion is the sum over entries of frame-count times direction count. -/
theorem C1_driver_iteration_order (plan : BatchExecPlan)
    (hD : 1 ≤ plan.directions) :
    collectUnits ((nestedTriples plan).length + 1) (initCursor plan)
        = some (nestedTriples plan) ∧
    ((nestedTriples plan).length : Int)
        = (plan.actions.map
            (fun a => (a.frame_range.frames.length : Int) * plan.directions)).sum := by
  constructor
  · have h := collectUnits_spec ((nestedTriples plan).length + 1) (initCursor plan)
      (initCursor_inv plan) (by rw [remainingUnits_init]; omega)
    rwa [remainingUnits_init] at h
  · have hlen := nestedTriples_length plan.actions plan.directions.toNat
    have hcast : ((plan.directions.toNat : Nat) : Int) = plan.directions :=
      Int.toNat_of_nonneg (by omega)
    rw [show nestedTriples plan = plan.actions.flatMap (fun a =>
        (List.range plan.directions.toNat).flatMap (fun d =>
          a.frame_range.frames.map (fun f => (a, d, f)))) from rfl, hlen]
    push_cast
    rw [List.map_map]
    apply congrArg List.sum
    apply List.map_congr_left
    intro a _
    simp only [Function.comp_apply]
    push_cast
    rw [hcast]
    ring

/-- Witness for C1: a two-entry plan with ranges `[1,2]` step 1 and `[7,7]`
step 1 and two directions yields the 6 triples in nested order. -/
theorem C1_driver_iteration_order_witness :
    (1 : Int) ≤ 2 ∧
    (collectUnits
          ((nestedTriples (BatchExecPlan.mk
            [ActionExecPlan.mk default default (FrameRangePlan.mk 1 2 1),
             ActionExecPlan.mk default default (FrameRangePlan.mk 7 7 1)] 2)).length + 1)
          (initCursor (BatchExecPlan.mk
            [ActionExecPlan.mk default default (FrameRangePlan.mk 1 2 1),
             ActionExecPlan.mk default default (FrameRangePlan.mk 7 7 1)] 2))
        = some (nestedTriples (BatchExecPlan.mk
            [ActionExecPlan.mk default default (FrameRangePlan.mk 1 2 1),
             ActionExecPlan.mk default default (FrameRangePlan.mk 7 7 1)] 2)) ∧
      ((nestedTriples (BatchExecPlan.mk
            [ActionExecPlan.mk default default (FrameRangePlan.mk 1 2 1),
             ActionExecPlan.mk default default (FrameRangePlan.mk 7 7 1)] 2)).length : Int)
        = ((BatchExecPlan.mk
            [ActionExecPlan.mk default default (FrameRangePlan.mk 1 2 1),
             ActionExecPlan.mk default default (FrameRangePlan.mk 7 7 1)] 2).actions.map
            (fun a => (a.frame_range.frames.length : Int)
              * (BatchExecPlan.mk
                  [ActionExecPlan.mk default default (FrameRangePlan.mk 1 2 1),
                   ActionExecPlan.mk default default (FrameRangePlan.mk 7 7 1)] 2).directions)).sum) :=
  ⟨by norm_num,
   C1_driver_iteration_order
     (BatchExecPlan.mk
       [ActionExecPlan.mk default default (FrameRangePlan.mk 1 2 1),
        ActionExecPlan.mk default default (FrameRangePlan.mk 7 7 1)] 2)
     (by norm_num)⟩

/-- C10: on every execution plan — including plans whose entries have empty
frame ranges — the `_next_frame` loop terminates within the computable
pass bound `cursorFuel`; the full unit sequence is the flattened one (so
an entry with an empty range contributes no unit for any direction), and
once the action index passes the last entry the selector reports
exhaustion and leaves the cursor unchanged. -/
theorem C10_next_frame_termination (plan : BatchExecPlan) :
    (∀ s : DriverCursor, s.plan = plan → CursorInv s →
        (nextFrameAux (cursorFuel s + 1) s).isSome) ∧
    collectUnits ((remainingUnits (initCursor plan)).length + 1) (initCursor plan)
        = some (nestedTriples plan) ∧
    (∀ a ∈ plan.actions, a.frame_range.stop < a.frame_range.start →
        ∀ d : Nat, dirsFrom plan.directions.toNat a d = []) ∧
    (∀ s : DriverCursor, s.plan = plan → s.current_action_plan = none →
        plan.actions.length ≤ s.action_index → nextFrame s = (none, s)) := by
  refine ⟨?_, ?_, ?_, ?_⟩
  · intro s _ hinv
    obtain ⟨s', h1, _, _, _⟩ := nextFrameAux_spec (cursorFuel s + 1) s (by omega) hinv
    rw [h1]
    rfl
  · rw [remainingUnits_init]
    have h := collectUnits_spec ((nestedTriples plan).length + 1)
      (initCursor plan) (initCursor_inv plan) (by rw [remainingUnits_init]; omega)
    rwa [remainingUnits_init] at h
  · intro a _ hlt d
    apply dirsFrom_empty
    simp [FrameRangePlan.frames, hlt]
  · intro s hplan hcur hlen
    have hlen2 : s.plan.actions.length ≤ s.action_index := by
      rw [hplan]
      exact hlen
    have hpass : nextFramePass s = PassResult.done s := by
      simp [nextFramePass, hcur, hlen2]
    simp [nextFrame, nextFrameAux, hpass]

/-- Witness for C10 at a concrete plan with one empty-range entry
(`end < start`) and two directions. -/
theorem C10_next_frame_termination_witness :
    collectUnits
        ((remainingUnits (initCursor (BatchExecPlan.mk
          [ActionExecPlan.mk default default (FrameRangePlan.mk 5 1 1)] 2))).length + 1)
        (initCursor (BatchExecPlan.mk
          [ActionExecPlan.mk default default (FrameRangePlan.mk 5 1 1)] 2))
      = some [] := by
  have h := (C10_next_frame_termination (BatchExecPlan.mk
    [ActionExecPlan.mk default default (FrameRangePlan.mk 5 1 1)] 2)).2.1
  rw [h]
  rfl

/-- Witness for C8 at concrete inputs `(5, 1, 1)` and `(1, 5, 2)`. -/
theorem C8_frameRange_frames_witness :
    (FrameRangePlan.mk 5 1 1).frames = [] ∧
    ((FrameRangePlan.mk 1 5 2).frames.length : Int) = 3 := by
  refine ⟨(C8_frameRange_frames 5 1 1).1 (by decide), ?_⟩
  have h := ((C8_frameRange_frames 1 5 2).2 (by decide) (by decide)).2.1
  norm_num at h
  exact h

theorem exec_sanity_7 :
    build_plan
      (some [BArmature.mk 1 "Arm" "ARMATURE"
        (some (BAnimData.mk (some (BAction.mk 1 "Walk" 1 10)) []))]) []
      = [SGG_ArmaturePlanItem.mk true true "Arm"
          (some (BArmature.mk 1 "Arm" "ARMATURE"
            (some (BAnimData.mk (some (BAction.mk 1 "Walk" 1 10)) []))))
          [SGG_ActionPlanItem.mk false "Walk" 1 10
            (some (BAction.mk 1 "Walk" 1 10)) false]] := by decide

/-! ### Lemmas about `sync_actions` -/

theorem sync_actions_armature (obj : BArmature) (it : SGG_ArmaturePlanItem) :
    (sync_actions obj it).armature = it.armature := rfl

theorem sync_actions_enabled (obj : BArmature) (it : SGG_ArmaturePlanItem) :
    (sync_actions obj it).enabled = it.enabled := rfl

/-- Replacing a structure's `actions` field by its own value is the
identity. -/
theorem armItem_set_actions_self (x : SGG_ArmaturePlanItem) (l : List SGG_ActionPlanItem)
    (h : x.actions = l) : ({ x with actions := l } : SGG_ArmaturePlanItem) = x := by
  cases x
  simp_all

/-- After one `sync_actions`, every discovered action has an item. -/
theorem sync_actions_covers (obj : BArmature) (it : SGG_ArmaturePlanItem) :
    ∀ a ∈ find_actions_for_armature obj,
      hasAction (sync_actions obj it).actions a = true := by
  intro a ha
  by_cases h0 : hasAction it.actions a = true
  · obtain ⟨x, hx, hxa⟩ := List.any_eq_true.mp h0
    refine List.any_eq_true.mpr ⟨x, ?_, hxa⟩
    simp only [sync_actions]
    refine List.mem_filter.mpr ⟨List.mem_append_left _ hx, ?_⟩
    have hxa' : x.action = some a := by simpa using hxa
    simp [keepPred, hxa', ha]
  · refine List.any_eq_true.mpr ⟨freshActionItem obj a, ?_, by simp [freshActionItem]⟩
    simp only [sync_actions]
    refine List.mem_filter.mpr ⟨List.mem_append_right _ ?_, ?_⟩
    · exact List.mem_map_of_mem _ (List.mem_filter.mpr ⟨ha, by simp [h0]⟩)
    · simp [keepPred, freshActionItem, ha]

/-- Every item surviving `sync_actions` satisfies the keep predicate. -/
theorem sync_actions_kept (obj : BArmature) (it : SGG_ArmaturePlanItem) :
    ∀ x ∈ (sync_actions obj it).actions,
      keepPred (find_actions_for_armature obj) x = true := by
  intro x hx
  simp only [sync_actions] at hx
  exact (List.mem_filter.mp hx).2

/-- `sync_actions` is idempotent. -/
theorem sync_actions_idem (obj : BArmature) (it : SGG_ArmaturePlanItem) :
    sync_actions obj (sync_actions obj it) = sync_actions obj it := by
  have hfilter : (find_actions_for_armature obj).filter
      (fun a => ! hasAction (sync_actions obj it).actions a) = [] := by
    rw [List.filter_eq_nil_iff]
    intro a ha
    simp [sync_actions_covers obj it a ha]
  have hkeep : (sync_actions obj it).actions.filter
      (keepPred (find_actions_for_armature obj)) = (sync_actions obj it).actions :=
    List.filter_eq_self.mpr (sync_actions_kept obj it)
  show ({ sync_actions obj it with actions := _ } : SGG_ArmaturePlanItem)
      = sync_actions obj it
  apply armItem_set_actions_self
  rw [hfilter]
  simp [hkeep]

/-! ### Generic list helpers for the `_build_plan` analysis -/

theorem set_getD_self {α : Type _} (l : List α) (n : Nat) (d : α)
    (h : n < l.length) : l.set n (l.getD n d) = l := by
  rw [List.getD_eq_getElem l d h]
  apply List.ext_getElem
  · simp
  · intro i h1 h2
    rw [List.getElem_set]
    split
    · rename_i heq
      subst heq
      rfl
    · rfl

theorem list_ext_getD {α : Type _} [Inhabited α] (l1 l2 : List α)
    (hlen : l1.length = l2.length)
    (h : ∀ j, j < l1.length → l1.getD j default = l2.getD j default) :
    l1 = l2 := by
  apply List.ext_getElem hlen
  intro i h1 h2
  have hj := h i h1
  rwa [List.getD_eq_getElem _ _ h1, List.getD_eq_getElem _ _ h2] at hj

theorem set_getD {α : Type _} [Inhabited α] (l : List α) (i j : Nat) (x : α)
    (h : j < l.length) :
    (l.set i x).getD j default = if i = j then x else l.getD j default := by
  have h2 : j < (l.set i x).length := by simpa using h
  rw [List.getD_eq_getElem _ _ h2, List.getElem_set, List.getD_eq_getElem _ _ h]

theorem applyIdx_length (F : Nat → SGG_ArmaturePlanItem → SGG_ArmaturePlanItem)
    (k : Nat) (l : List SGG_ArmaturePlanItem) :
    (applyIdx F k l).length = l.length := by
  induction l generalizing k with
  | nil => rfl
  | cons it rest ih => simp [applyIdx, ih]

theorem applyIdx_getD (F : Nat → SGG_ArmaturePlanItem → SGG_ArmaturePlanItem)
    (k : Nat) (l : List SGG_ArmaturePlanItem) (j : Nat) (h : j < l.length) :
    (applyIdx F k l).getD j default = F (k + j) (l.getD j default) := by
  induction l generalizing k j with
  | nil => simp at h
  | cons it rest ih =>
    cases j with
    | zero => simp [applyIdx]
    | succ j2 =>
      have h2 : j2 < rest.length := by simpa using h
      have hrec := ih (k + 1) j2 h2
      simp only [applyIdx, List.getD_cons_succ]
      rw [hrec, show k + 1 + j2 = k + (j2 + 1) by omega]

theorem applyIdx_congr {F G : Nat → SGG_ArmaturePlanItem → SGG_ArmaturePlanItem}
    (k : Nat) (l : List SGG_ArmaturePlanItem) (h : ∀ i it, F i it = G i it) :
    applyIdx F k l = applyIdx G k l := by
  induction l generalizing k with
  | nil => rfl
  | cons it rest ih => simp [applyIdx, h, ih]

theorem applyIdx_id {F : Nat → SGG_ArmaturePlanItem → SGG_ArmaturePlanItem}
    (k : Nat) (l : List SGG_ArmaturePlanItem) (h : ∀ i it, F i it = it) :
    applyIdx F k l = l := by
  induction l generalizing k with
  | nil => rfl
  | cons it rest ih => simp [applyIdx, h, ih]

/-! ### `lastIdxByArm` specification -/

theorem lastIdx_none_iff (l : List SGG_ArmaturePlanItem) (o : BArmature) :
    lastIdxByArm l o = none ↔ ∀ it ∈ l, it.armature ≠ some o := by
  induction l with
  | nil => simp [lastIdxByArm]
  | cons it rest ih =>
    simp only [lastIdxByArm, List.mem_cons]
    rcases h : lastIdxByArm rest o with _ | i
    · by_cases hit : it.armature = some o
      · simp [hit]
      · simpa [hit] using ih.mp h
    · constructor
      · intro hcontra
        simp at hcontra
      · intro hall
        have : lastIdxByArm rest o = none := by
          rw [ih]
          intro x hx
          exact hall x (Or.inr hx)
        rw [this] at h
        simp at h

theorem lastIdx_lt (l : List SGG_ArmaturePlanItem) (o : BArmature) (i : Nat)
    (h : lastIdxByArm l o = some i) : i < l.length := by
  induction l generalizing i with
  | nil => simp [lastIdxByArm] at h
  | cons it rest ih =>
    simp only [lastIdxByArm] at h
    rcases h2 : lastIdxByArm rest o with _ | i2 <;> rw [h2] at h
    · by_cases hit : it.armature == some o
      · simp [hit] at h
        subst h
        simp
      · simp [hit] at h
    · simp at h
      subst h
      have := ih i2 h2
      simp
      omega

theorem lastIdx_getD (l : List SGG_ArmaturePlanItem) (o : BArmature) (i : Nat)
    (h : lastIdxByArm l o = some i) :
    (l.getD i default).armature = some o := by
  induction l generalizing i with
  | nil => simp [lastIdxByArm] at h
  | cons it rest ih =>
    simp only [lastIdxByArm] at h
    rcases h2 : lastIdxByArm rest o with _ | i2 <;> rw [h2] at h
    · by_cases hit : it.armature == some o
      · simp [hit] at h
        subst h
        simpa using eq_of_beq hit
      · simp [hit] at h
    · simp at h
      subst h
      simpa using ih i2 h2

/-- `lastIdxByArm` only looks at the `armature` fields, which `applyIdx`
with an armature-preserving function keeps. -/
theorem lastIdx_applyIdx (F : Nat → SGG_ArmaturePlanItem → SGG_ArmaturePlanItem)
    (hF : ∀ i it, (F i it).armature = it.armature)
    (k : Nat) (l : List SGG_ArmaturePlanItem) (o : BArmature) :
    lastIdxByArm (applyIdx F k l) o = lastIdxByArm l o := by
  induction l generalizing k with
  | nil => rfl
  | cons it rest ih =>
    simp only [applyIdx, lastIdxByArm, ih, hF]

theorem syncedAt_armature (p : List SGG_ArmaturePlanItem) (A : List BArmature)
    (i : Nat) (it : SGG_ArmaturePlanItem) :
    (syncedAt p A i it).armature = it.armature := by
  rcases h : it.armature with _ | o <;> simp only [syncedAt, h]
  split
  · rw [sync_actions_armature]
    exact h
  · exact h

theorem freshPart_append (p : List SGG_ArmaturePlanItem) (A : List BArmature)
    (o : BArmature) :
    freshPart p (A ++ [o]) = freshPart p A
      ++ (if lastIdxByArm p o = none then [sync_actions o (freshArmItem o)]
          else []) := by
  simp only [freshPart, List.filter_append, List.map_append]
  congr 1
  rcases h : lastIdxByArm p o with _ | i <;> simp [h]

/-- Closed form of the armature loop of `_build_plan`: the original items
with the dict-targeted ones action-synced, followed by fresh synced items
for the unseen armatures. -/
theorem buildPlan_foldl_eq (p : List SGG_ArmaturePlanItem) (A : List BArmature) :
    A.foldl (buildPlanStep p) p
      = applyIdx (syncedAt p A) 0 p ++ freshPart p A := by
  induction A using List.reverseRecOn with
  | nil =>
    have hid : ∀ i it, syncedAt p [] i it = it := by
      intro i it
      rcases ha : it.armature with _ | o <;> simp [syncedAt, ha]
    rw [List.foldl_nil, applyIdx_id 0 p hid]
    simp [freshPart]
  | append_singleton A o ih =>
    rw [List.foldl_append, List.foldl_cons, List.foldl_nil, ih]
    rcases h : lastIdxByArm p o with _ | i
    · -- armature unseen by the dict: the loop appends a fresh synced item
      simp only [buildPlanStep, h]
      rw [freshPart_append, h, if_pos rfl, ← List.append_assoc]
      congr 2
      apply applyIdx_congr
      intro j it
      rcases ha : it.armature with _ | o2
      · simp [syncedAt, ha]
      · by_cases ho2 : o2 = o
        · subst ho2
          simp [syncedAt, ha, h]
        · simp [syncedAt, ha, List.mem_append, ho2]
    · -- armature present in the dict: the loop syncs in place at index i
      simp only [buildPlanStep, h]
      have hip : i < p.length := lastIdx_lt p o i h
      have hilt : i < (applyIdx (syncedAt p A) 0 p).length := by
        rw [applyIdx_length]
        exact hip
      rw [List.getD_append _ _ _ _ hilt, List.set_append_left _ _ hilt]
      rw [freshPart_append, h, if_neg (by simp), List.append_nil]
      congr 1
      have harm : (p.getD i default).armature = some o := lastIdx_getD p o i h
      have hbody_getD : (applyIdx (syncedAt p A) 0 p).getD i default
          = syncedAt p A i (p.getD i default) := by
        simpa using applyIdx_getD (syncedAt p A) 0 p i hip
      by_cases hoA : o ∈ A
      · -- already processed earlier in the loop: the second sync is a no-op
        have hsynced : syncedAt p A i (p.getD i default)
            = sync_actions o (p.getD i default) := by
          simp only [syncedAt, harm]
          simp [hoA, h]
        rw [hbody_getD, hsynced, sync_actions_idem, ← hsynced, ← hbody_getD,
          set_getD_self _ _ _ hilt]
        apply applyIdx_congr
        intro j it
        rcases ha : it.armature with _ | o2
        · simp [syncedAt, ha]
        · by_cases ho2 : o2 = o
          · subst ho2
            simp [syncedAt, ha, List.mem_append, hoA]
          · simp [syncedAt, ha, List.mem_append, ho2]
      · -- first time this armature is processed: exactly index i gets synced
        have hnotsync : syncedAt p A i (p.getD i default) = p.getD i default := by
          simp only [syncedAt, harm]
          simp [hoA]
        rw [hbody_getD, hnotsync]
        apply list_ext_getD
        · rw [List.length_set, applyIdx_length, applyIdx_length]
        · intro j hj
          have hjp : j < p.length := by
            rw [List.length_set, applyIdx_length] at hj
            exact hj
          rw [set_getD _ _ _ _ (by rw [applyIdx_length]; exact hjp),
            applyIdx_getD (syncedAt p (A ++ [o])) 0 p j hjp]
          simp only [Nat.zero_add]
          by_cases hij : i = j
          · subst hij
            rw [if_pos rfl]
            simp only [syncedAt, harm]
            simp [h, List.mem_append]
          · rw [if_neg hij, applyIdx_getD (syncedAt p A) 0 p j hjp]
            simp only [Nat.zero_add]
            rcases ha : (p.getD j default).armature with _ | o2
            · simp only [syncedAt, ha]
            · by_cases ho2 : o2 = o
              · subst ho2
                simp only [syncedAt, ha]
                simp [h, hij]
              · simp only [syncedAt, ha]
                simp [List.mem_append, ho2]

theorem lastIdx_append_right (l1 l2 : List SGG_ArmaturePlanItem)
    (o : BArmature) (i : Nat) (h : lastIdxByArm l2 o = some i) :
    lastIdxByArm (l1 ++ l2) o = some (l1.length + i) := by
  induction l1 with
  | nil => simpa using h
  | cons it rest ih =>
    have ih2 : lastIdxByArm (rest.append l2) o = some (rest.length + i) := ih
    simp only [List.cons_append, lastIdxByArm, ih, ih2, List.length_cons]
    congr 1
    omega

theorem lastIdx_append_left (l1 l2 : List SGG_ArmaturePlanItem)
    (o : BArmature) (h : lastIdxByArm l2 o = none) :
    lastIdxByArm (l1 ++ l2) o = lastIdxByArm l1 o := by
  induction l1 with
  | nil => simpa using h
  | cons it rest ih =>
    have ih2 : lastIdxByArm (rest.append l2) o = lastIdxByArm rest o := ih
    simp only [List.cons_append, lastIdxByArm, ih, ih2]

theorem LastSynced_append (l1 l2 : List SGG_ArmaturePlanItem) (o : BArmature)
    (h2 : LastSynced l2 o)
    (h1 : lastIdxByArm l2 o = none → LastSynced l1 o) :
    LastSynced (l1 ++ l2) o := by
  intro i hi
  rcases h : lastIdxByArm l2 o with _ | i2
  · rw [lastIdx_append_left l1 l2 o h] at hi
    have hlt := lastIdx_lt l1 o i hi
    rw [List.getD_append _ _ _ _ hlt]
    exact h1 h i hi
  · rw [lastIdx_append_right l1 l2 o i2 h] at hi
    have hieq : i = l1.length + i2 := by
      simpa using hi.symm
    subst hieq
    rw [List.getD_append_right _ _ _ _ (by omega),
      show l1.length + i2 - l1.length = i2 by omega]
    exact h2 i2 h

theorem LastSynced_of_all (l : List SGG_ArmaturePlanItem) (o : BArmature)
    (h : ∀ it ∈ l, it.armature = some o → sync_actions o it = it) :
    LastSynced l o := by
  intro i hi
  have hlt := lastIdx_lt l o i hi
  have harm := lastIdx_getD l o i hi
  have hmem : l.getD i default ∈ l := by
    rw [List.getD_eq_getElem _ _ hlt]
    exact List.getElem_mem _
  exact h _ hmem harm

theorem LastSynced_tail (it : SGG_ArmaturePlanItem)
    (rest : List SGG_ArmaturePlanItem) (o : BArmature)
    (h : LastSynced (it :: rest) o) : LastSynced rest o := by
  intro i hi
  have hstep : lastIdxByArm (it :: rest) o = some (i + 1) := by
    simp [lastIdxByArm, hi]
  have := h (i + 1) hstep
  simpa using this

theorem LastSynced_filter (keep : SGG_ArmaturePlanItem → Bool) (o : BArmature)
    (hkeep : ∀ it, it.armature = some o → keep it = true) :
    ∀ l : List SGG_ArmaturePlanItem,
      LastSynced l o → LastSynced (l.filter keep) o := by
  intro l
  induction l with
  | nil =>
    intro _ i hi
    simp [lastIdxByArm] at hi
  | cons it rest ih =>
    intro h
    have htail := LastSynced_tail it rest o h
    by_cases hk : keep it = true
    · rw [List.filter_cons_of_pos hk]
      intro i hi
      simp only [lastIdxByArm] at hi
      rcases h2 : lastIdxByArm (rest.filter keep) o with _ | i2 <;> rw [h2] at hi
      · by_cases hit : (it.armature == some o) = true
        · rw [if_pos hit] at hi
          have hieq : i = 0 := by simpa using hi.symm
          subst hieq
          have hrnone : lastIdxByArm rest o = none := by
            rw [lastIdx_none_iff]
            intro x hx hxa
            have hxf : x ∈ rest.filter keep := List.mem_filter.mpr ⟨hx, hkeep x hxa⟩
            exact (lastIdx_none_iff _ o).mp h2 x hxf hxa
          have h0 : lastIdxByArm (it :: rest) o = some 0 := by
            simp [lastIdxByArm, hrnone, hit]
          have := h 0 h0
          simpa using this
        · rw [if_neg (by simpa using hit)] at hi
          simp at hi
      · have hieq : i = i2 + 1 := by simpa using hi.symm
        subst hieq
        have := ih htail i2 h2
        simpa using this
    · rw [List.filter_cons_of_neg (by simpa using hk)]
      exact ih htail

/-- After one run, the dict-selected item of the synced plan is synced. -/
theorem lastSynced_body (p : List SGG_ArmaturePlanItem) (A : List BArmature)
    (o : BArmature) (ho : o ∈ A) :
    LastSynced (applyIdx (syncedAt p A) 0 p) o := by
  intro i hi
  have hlast : lastIdxByArm p o = some i := by
    rwa [lastIdx_applyIdx _ (syncedAt_armature p A) 0 p o] at hi
  have hip : i < p.length := lastIdx_lt p o i hlast
  have harm := lastIdx_getD p o i hlast
  have hg : (applyIdx (syncedAt p A) 0 p).getD i default
      = syncedAt p A i (p.getD i default) := by
    simpa using applyIdx_getD (syncedAt p A) 0 p i hip
  rw [hg]
  have hs : syncedAt p A i (p.getD i default)
      = sync_actions o (p.getD i default) := by
    simp only [syncedAt, harm]
    simp [ho, hlast]
  rw [hs, sync_actions_idem]

theorem lastSynced_fresh (p : List SGG_ArmaturePlanItem) (A : List BArmature)
    (o : BArmature) : LastSynced (freshPart p A) o := by
  apply LastSynced_of_all
  intro it hit harm2
  simp only [freshPart] at hit
  obtain ⟨o2, _, rfl⟩ := List.mem_map.mp hit
  rw [sync_actions_armature] at harm2
  have ho2 : o2 = o := by simpa [freshArmItem] using harm2
  subst ho2
  exact sync_actions_idem _ _

/-- The result of one synchronizer run has its dict-selected item synced,
for every armature of the collection. -/
theorem build_plan_lastSynced (p : List SGG_ArmaturePlanItem)
    (A : List BArmature) (o : BArmature) (ho : o ∈ A) :
    LastSynced ((applyIdx (syncedAt p A) 0 p ++ freshPart p A).filter (keepArm A)) o := by
  apply LastSynced_filter
  · intro it harm
    simp [keepArm, harm, ho]
  · apply LastSynced_append
    · exact lastSynced_fresh p A o
    · intro _
      exact lastSynced_body p A o ho

/-- Every collection armature has an item in the result of one run. -/
theorem build_plan_mem (p : List SGG_ArmaturePlanItem) (A : List BArmature)
    (o : BArmature) (ho : o ∈ A) :
    ∃ it ∈ (applyIdx (syncedAt p A) 0 p ++ freshPart p A).filter (keepArm A),
      it.armature = some o := by
  rcases h : lastIdxByArm p o with _ | i
  · refine ⟨sync_actions o (freshArmItem o), ?_, ?_⟩
    · apply List.mem_filter.mpr
      refine ⟨List.mem_append_right _ ?_, ?_⟩
      · simp only [freshPart]
        exact List.mem_map_of_mem _ (List.mem_filter.mpr ⟨ho, by simp [h]⟩)
      · simp [keepArm, sync_actions_armature, freshArmItem, ho]
    · rw [sync_actions_armature]
      rfl
  · have hip := lastIdx_lt p o i h
    have harm := lastIdx_getD p o i h
    have hg : (applyIdx (syncedAt p A) 0 p).getD i default
        = syncedAt p A i (p.getD i default) := by
      simpa using applyIdx_getD (syncedAt p A) 0 p i hip
    have harm2 : ((applyIdx (syncedAt p A) 0 p).getD i default).armature = some o := by
      rw [hg, syncedAt_armature]
      exact harm
    refine ⟨(applyIdx (syncedAt p A) 0 p).getD i default, ?_, harm2⟩
    apply List.mem_filter.mpr
    constructor
    · apply List.mem_append_left
      have hlt : i < (applyIdx (syncedAt p A) 0 p).length := by
        rw [applyIdx_length]
        exact hip
      rw [List.getD_eq_getElem _ _ hlt]
      exact List.getElem_mem _
    · simp only [keepArm, harm2]
      simp [ho]

theorem foldl_fixed {α β : Type _} (f : β → α → β) (b : β) (L : List α)
    (h : ∀ x ∈ L, f b x = b) : L.foldl f b = b := by
  induction L with
  | nil => rfl
  | cons x rest ih =>
    rw [List.foldl_cons, h x (by simp)]
    exact ih (fun y hy => h y (by simp [hy]))

/-- C7: running the Plan Synchronizer a second time with no scene change
is a no-op: the whole planning state — subject-entries, nested
clip-entries, and every `enabled`, `ui_expanded`, `frame_start`,
`frame_end`, `reverse_playback` value — is identical before and after
the second run. -/
theorem C7_build_plan_idempotent (collection : Option (List BArmature))
    (plan : List SGG_ArmaturePlanItem) :
    build_plan collection (build_plan collection plan)
      = build_plan collection plan := by
  rcases collection with _ | objs
  · rfl
  · simp only [build_plan]
    set A := find_armatures_in_collection (some objs) with hA
    set q := (A.foldl (buildPlanStep plan) plan).filter (keepArm A) with hq
    have hqform : q = (applyIdx (syncedAt plan A) 0 plan
        ++ freshPart plan A).filter (keepArm A) := by
      rw [hq, buildPlan_foldl_eq]
    have hstep : ∀ o ∈ A, buildPlanStep q q o = q := by
      intro o ho
      obtain ⟨it, hit, harm⟩ := build_plan_mem plan A o ho
      rw [← hqform] at hit
      have hlast : lastIdxByArm q o ≠ none := by
        intro hnone
        exact (lastIdx_none_iff q o).mp hnone it hit harm
      rcases hL : lastIdxByArm q o with _ | i
      · exact absurd hL hlast
      · have hsync := build_plan_lastSynced plan A o ho i (by rwa [← hqform])
        rw [← hqform] at hsync
        have hlt := lastIdx_lt q o i hL
        simp only [buildPlanStep, hL]
        rw [hsync, set_getD_self _ _ _ hlt]
    rw [foldl_fixed (buildPlanStep q) q A hstep]
    apply List.filter_eq_self.mpr
    intro x hx
    rw [hq] at hx
    exact (List.mem_filter.mp hx).2

theorem exec_sanity_8 :
    isFinished (runDriver okOracle "out" testWorld testPS 1 1
      [BEvent.TIMER, BEvent.TIMER, BEvent.TIMER]) = true := by decide

theorem exec_sanity_9 :
    (outcomeWorld (runDriver okOracle "out" testWorld testPS 1 1
      [BEvent.TIMER, BEvent.TIMER, BEvent.TIMER])).renders_done = 2 := by decide

theorem exec_sanity_10 :
    (outcomeWorld (runDriver okOracle "out" testWorld testPS 1 1
      [BEvent.TIMER, BEvent.TIMER, BEvent.TIMER])).scene
      = testWorld.scene ∨
    (outcomeWorld (runDriver okOracle "out" testWorld testPS 1 1
      [BEvent.TIMER, BEvent.TIMER, BEvent.TIMER])).scene.anim_data = [(7, none)] := by
  decide

/-! ### Scene-state lemmas -/

theorem lookupAnim_append (l1 l2 : List (Nat × Option Nat)) (id : Nat) :
    lookupAnim (l1 ++ l2) id
      = match lookupAnim l1 id with
        | some x => some x
        | none => lookupAnim l2 id := by
  induction l1 with
  | nil => rfl
  | cons e rest ih =>
    simp only [List.cons_append, lookupAnim]
    by_cases h : (e.1 == id) = true
    · simp [h]
    · simp [h, ih]

theorem lookup_set_other (l : List (Nat × Option Nat)) (k id : Nat)
    (v : Option Nat) (h : ¬ k = id) :
    lookupAnim (l.map (fun e => if e.1 == k then (e.1, v) else e)) id
      = lookupAnim l id := by
  induction l with
  | nil => rfl
  | cons e rest ih =>
    simp only [List.map_cons, lookupAnim]
    by_cases h1 : (e.1 == k) = true
    · rw [if_pos h1]
      simp only [lookupAnim]
      rw [show ((e.1, v).1 == id) = (e.1 == id) from rfl]
      by_cases h2 : (e.1 == id) = true
      · exact absurd (by rw [← eq_of_beq h1, eq_of_beq h2]) h
      · rw [if_neg h2, if_neg h2, ih]
    · rw [if_neg h1]
      by_cases h2 : (e.1 == id) = true
      · rw [if_pos h2, if_pos h2]
      · rw [if_neg h2, if_neg h2, ih]

theorem lookup_set_none_iff (l : List (Nat × Option Nat)) (k id : Nat)
    (v : Option Nat) :
    lookupAnim (l.map (fun e => if e.1 == k then (e.1, v) else e)) id = none
      ↔ lookupAnim l id = none := by
  induction l with
  | nil => simp [lookupAnim]
  | cons e rest ih =>
    simp only [List.map_cons, lookupAnim]
    by_cases h1 : (e.1 == k) = true
    · rw [if_pos h1]
      simp only [lookupAnim]
      rw [show ((e.1, v).1 == id) = (e.1 == id) from rfl]
      by_cases h2 : (e.1 == id) = true
      · rw [if_pos h2, if_pos h2]
        simp
      · rw [if_neg h2, if_neg h2]
        exact ih
    · rw [if_neg h1]
      by_cases h2 : (e.1 == id) = true
      · rw [if_pos h2, if_pos h2]
      · rw [if_neg h2, if_neg h2]
        exact ih

theorem lookup_set_same_present (l : List (Nat × Option Nat)) (k : Nat)
    (v : Option Nat) (x : Option Nat) (h : lookupAnim l k = some x) :
    lookupAnim (l.map (fun e => if e.1 == k then (e.1, v) else e)) k = some v := by
  induction l with
  | nil => simp [lookupAnim] at h
  | cons e rest ih =>
    simp only [lookupAnim] at h
    simp only [List.map_cons, lookupAnim]
    by_cases h1 : (e.1 == k) = true
    · rw [if_pos h1]
      rw [show ((e.1, v).1 == k) = (e.1 == k) from rfl, if_pos h1]
    · rw [if_neg h1]
      rw [if_neg h1]
      rw [if_neg h1] at h
      exact ih h

theorem setAnimAction_frame (sc : SceneState) (k : Nat) (v : Option Nat) :
    (setAnimAction sc k v).frame_current = sc.frame_current := rfl

theorem setAnimAction_filepath (sc : SceneState) (k : Nat) (v : Option Nat) :
    (setAnimAction sc k v).render_filepath = sc.render_filepath := rfl

theorem animDataCreate_frame (sc : SceneState) (k : Nat) :
    (animDataCreate sc k).frame_current = sc.frame_current := by
  simp only [animDataCreate]
  rcases lookupAnim sc.anim_data k with _ | x <;> rfl

theorem animDataCreate_filepath (sc : SceneState) (k : Nat) :
    (animDataCreate sc k).render_filepath = sc.render_filepath := by
  simp only [animDataCreate]
  rcases lookupAnim sc.anim_data k with _ | x <;> rfl

theorem lookup_create_mono (sc : SceneState) (k id : Nat)
    (h : lookupAnim sc.anim_data id ≠ none) :
    lookupAnim (animDataCreate sc k).anim_data id ≠ none := by
  simp only [animDataCreate]
  rcases hk : lookupAnim sc.anim_data k with _ | x
  · show lookupAnim (sc.anim_data ++ [(k, none)]) id ≠ none
    rw [lookupAnim_append]
    rcases h2 : lookupAnim sc.anim_data id with _ | y
    · exact absurd h2 h
    · simp
  · exact h

theorem adAction_set_other (sc : SceneState) (k : Nat) (v : Option Nat)
    (armId : Nat) (h : ¬ k = armId) :
    adActionOrNone (setAnimAction sc k v) armId = adActionOrNone sc armId := by
  simp only [adActionOrNone]
  have h2 : lookupAnim (setAnimAction sc k v).anim_data armId
      = lookupAnim sc.anim_data armId := lookup_set_other sc.anim_data k armId v h
  rw [h2]

theorem restoreActions_step (e : Nat × Option Nat) (rest : List (Nat × Option Nat))
    (sc : SceneState) :
    restoreActions (e :: rest) sc
      = restoreActions rest (match lookupAnim sc.anim_data e.1 with
          | some _ => setAnimAction sc e.1 e.2
          | none => sc) := rfl

theorem restoreActions_frame (es : List (Nat × Option Nat)) :
    ∀ sc : SceneState, (restoreActions es sc).frame_current = sc.frame_current := by
  induction es with
  | nil => intro sc; rfl
  | cons e rest ih =>
    intro sc
    rw [restoreActions_step]
    rcases h : lookupAnim sc.anim_data e.1 with _ | x
    · simp only [h]
      exact ih sc
    · simp only [h]
      rw [ih, setAnimAction_frame]

theorem restoreActions_filepath (es : List (Nat × Option Nat)) :
    ∀ sc : SceneState, (restoreActions es sc).render_filepath = sc.render_filepath := by
  induction es with
  | nil => intro sc; rfl
  | cons e rest ih =>
    intro sc
    rw [restoreActions_step]
    rcases h : lookupAnim sc.anim_data e.1 with _ | x
    · simp only [h]
      exact ih sc
    · simp only [h]
      rw [ih, setAnimAction_filepath]

theorem restoreActions_none (es : List (Nat × Option Nat)) :
    ∀ (sc : SceneState) (id : Nat), lookupAnim sc.anim_data id = none →
    lookupAnim (restoreActions es sc).anim_data id = none := by
  induction es with
  | nil => intro sc id h; exact h
  | cons e rest ih =>
    intro sc id h
    rw [restoreActions_step]
    rcases h2 : lookupAnim sc.anim_data e.1 with _ | x
    · simp only [h2]
      exact ih sc id h
    · simp only [h2]
      apply ih
      exact (lookup_set_none_iff sc.anim_data e.1 id e.2).mpr h

theorem restoreActions_other (es : List (Nat × Option Nat)) :
    ∀ (sc : SceneState) (armId : Nat), armId ∉ es.map Prod.fst →
    adActionOrNone (restoreActions es sc) armId = adActionOrNone sc armId := by
  induction es with
  | nil => intro sc armId _; rfl
  | cons e rest ih =>
    intro sc armId hnotin
    have hne : ¬ e.1 = armId := by
      intro hc
      exact hnotin (by simp [← hc])
    have hnotin2 : armId ∉ rest.map Prod.fst := by
      intro hc
      exact hnotin (by simp [hc])
    rw [restoreActions_step]
    rcases h2 : lookupAnim sc.anim_data e.1 with _ | x
    · simp only [h2]
      exact ih sc armId hnotin2
    · simp only [h2]
      rw [ih _ armId hnotin2, adAction_set_other sc e.1 e.2 armId hne]

theorem restoreActions_value (es : List (Nat × Option Nat)) :
    ∀ (sc : SceneState) (armId : Nat) (act : Option Nat),
    (es.map Prod.fst).Nodup → (armId, act) ∈ es →
    lookupAnim sc.anim_data armId ≠ none →
    adActionOrNone (restoreActions es sc) armId = act := by
  induction es with
  | nil =>
    intro sc armId act _ hmem _
    simp at hmem
  | cons e rest ih =>
    intro sc armId act hnodup hmem hpres
    rw [restoreActions_step]
    rcases List.mem_cons.mp hmem with heq | hmemr
    · have he1 : e.1 = armId := by rw [← heq]
      have he2 : e.2 = act := by rw [← heq]
      rcases hx : lookupAnim sc.anim_data e.1 with _ | x
      · rw [he1] at hx
        exact absurd hx hpres
      · simp only [hx]
        have hnotin : armId ∉ rest.map Prod.fst := by
          have := hnodup
          rw [List.map_cons, List.nodup_cons] at this
          rw [← he1]
          exact this.1
        rw [restoreActions_other rest _ armId hnotin]
        simp only [adActionOrNone]
        have hset : lookupAnim (setAnimAction sc e.1 e.2).anim_data e.1 = some e.2 :=
          lookup_set_same_present sc.anim_data e.1 e.2 x hx
        rw [← he1, hset]
        exact he2
    · have hkeys : armId ∈ rest.map Prod.fst := by
        exact List.mem_map_of_mem Prod.fst hmemr
      have hne : ¬ e.1 = armId := by
        intro hc
        have := hnodup
        rw [List.map_cons, List.nodup_cons] at this
        exact this.1 (hc ▸ hkeys)
      have hnodup2 : (rest.map Prod.fst).Nodup := by
        have := hnodup
        rw [List.map_cons, List.nodup_cons] at this
        exact this.2
      rcases hx : lookupAnim sc.anim_data e.1 with _ | x
      · simp only [hx]
        exact ih sc armId act hnodup2 hmemr hpres
      · simp only [hx]
        apply ih _ armId act hnodup2 hmemr
        have := lookup_set_other sc.anim_data e.1 armId e.2 hne
        intro hc
        rw [show lookupAnim (setAnimAction sc e.1 e.2).anim_data armId
          = lookupAnim sc.anim_data armId from this] at hc
        exact hpres hc

/-! ### Snapshot lemmas (`execute`'s `_original_actions` dict) -/

theorem snapshot_sub (scene : SceneState) (aps : List ActionExecPlan) :
    ∀ (acc : List (Nat × Option Nat)) (e : Nat × Option Nat), e ∈ acc →
      e ∈ snapshotOriginalActions scene aps acc := by
  induction aps with
  | nil => intro acc e h; exact h
  | cons ap rest ih =>
    intro acc e h
    simp only [snapshotOriginalActions]
    by_cases hk : acc.any (fun x => x.1 == ap.armature_obj.id) = true
    · rw [if_pos hk]
      exact ih acc e h
    · rw [if_neg hk]
      exact ih _ e (List.mem_append_left _ h)

theorem snapshot_values (scene : SceneState) (aps : List ActionExecPlan) :
    ∀ acc : List (Nat × Option Nat),
    (∀ e ∈ acc, e.2 = adActionOrNone scene e.1) →
    ∀ e ∈ snapshotOriginalActions scene aps acc, e.2 = adActionOrNone scene e.1 := by
  induction aps with
  | nil => intro acc h; exact h
  | cons ap rest ih =>
    intro acc hacc
    simp only [snapshotOriginalActions]
    by_cases hk : acc.any (fun x => x.1 == ap.armature_obj.id) = true
    · rw [if_pos hk]
      exact ih acc hacc
    · rw [if_neg hk]
      apply ih
      intro e he
      rcases List.mem_append.mp he with h1 | h2
      · exact hacc e h1
      · have : e = (ap.armature_obj.id, adActionOrNone scene ap.armature_obj.id) := by
          simpa using h2
        rw [this]

theorem snapshot_covers (scene : SceneState) (aps : List ActionExecPlan) :
    ∀ acc : List (Nat × Option Nat), ∀ ap ∈ aps,
    ∃ e ∈ snapshotOriginalActions scene aps acc, e.1 = ap.armature_obj.id := by
  induction aps with
  | nil =>
    intro acc ap h
    simp at h
  | cons ap0 rest ih =>
    intro acc ap hmem
    rcases List.mem_cons.mp hmem with heq | hr
    · subst heq
      simp only [snapshotOriginalActions]
      by_cases hk : acc.any (fun x => x.1 == ap.armature_obj.id) = true
      · rw [if_pos hk]
        obtain ⟨e, he, heq2⟩ := List.any_eq_true.mp hk
        exact ⟨e, snapshot_sub scene rest acc e he, eq_of_beq heq2⟩
      · rw [if_neg hk]
        refine ⟨(ap.armature_obj.id, adActionOrNone scene ap.armature_obj.id),
          snapshot_sub scene rest _ _ (List.mem_append_right _ (by simp)), rfl⟩
    · simp only [snapshotOriginalActions]
      by_cases hk : acc.any (fun x => x.1 == ap0.armature_obj.id) = true
      · rw [if_pos hk]
        exact ih acc ap hr
      · rw [if_neg hk]
        exact ih _ ap hr

theorem snapshot_nodup (scene : SceneState) (aps : List ActionExecPlan) :
    ∀ acc : List (Nat × Option Nat), (acc.map Prod.fst).Nodup →
    ((snapshotOriginalActions scene aps acc).map Prod.fst).Nodup := by
  induction aps with
  | nil => intro acc h; exact h
  | cons ap rest ih =>
    intro acc hacc
    simp only [snapshotOriginalActions]
    by_cases hk : acc.any (fun x => x.1 == ap.armature_obj.id) = true
    · rw [if_pos hk]
      exact ih acc hacc
    · rw [if_neg hk]
      apply ih
      rw [List.map_append]
      rw [List.nodup_append]
      refine ⟨hacc, by simp, ?_⟩
      intro a ha hb
      have hb2 : a = ap.armature_obj.id := by simpa using hb
      subst hb2
      obtain ⟨e, he, heq⟩ := List.mem_map.mp ha
      have : acc.any (fun x => x.1 == ap.armature_obj.id) = true :=
        List.any_eq_true.mpr ⟨e, he, by simp [heq]⟩
      exact hk this

theorem finish_batch_scene (w : World) (c : Bool) :
    (finish_batch w c).scene
      = restoreActions w.op.original_actions { w.scene with frame_current := w.op.original_frame, render_filepath := w.op.original_filepath } := by
  cases c with
  | false =>
    rcases hp : w.op.plan with _ | plan
    · simp [finish_batch, hp]
    · simp [finish_batch, hp, assemble_spritesheets]
  | true => rfl

theorem finish_batch_counters (w : World) :
    (finish_batch w true).renders_done = w.renders_done ∧
    (finish_batch w true).sheets_written = w.sheets_written ∧
    (finish_batch w true).settings = w.settings := ⟨rfl, rfl, rfl⟩

/-- `_finish_batch` restores every snapshotted value, on both terminal
paths. -/
theorem finish_batch_restores (w0 : World) (plan : BatchExecPlan) (w : World)
    (hInv : RunInv w0 plan w) (c : Bool) : Restored w0 plan (finish_batch w c) := by
  obtain ⟨hplan, hfr, hfp, hvals, hcov, hnd, hpres⟩ := hInv
  rw [Restored, finish_batch_scene]
  refine ⟨?_, ?_, ?_⟩
  · rw [restoreActions_frame]
    exact hfr
  · rw [restoreActions_filepath]
    exact hfp
  · intro ap hap
    obtain ⟨e, he, heid⟩ := hcov ap hap
    rcases hx : lookupAnim w.scene.anim_data ap.armature_obj.id with _ | x
    · have h1 : adActionOrNone (restoreActions w.op.original_actions { w.scene with frame_current := w.op.original_frame, render_filepath := w.op.original_filepath }) ap.armature_obj.id = none := by
        simp only [adActionOrNone]
        rw [restoreActions_none w.op.original_actions { w.scene with frame_current := w.op.original_frame, render_filepath := w.op.original_filepath } ap.armature_obj.id hx]
      have h2 : lookupAnim w0.scene.anim_data ap.armature_obj.id = none := by
        by_contra hc
        exact (hpres _ hc) hx
      have h3 : adActionOrNone w0.scene ap.armature_obj.id = none := by
        simp only [adActionOrNone]
        rw [h2]
      rw [h1, h3]
    · have hmem : (ap.armature_obj.id, e.2) ∈ w.op.original_actions := by
        rw [← heid]
        exact he
      have h1 := restoreActions_value w.op.original_actions { w.scene with frame_current := w.op.original_frame, render_filepath := w.op.original_filepath } ap.armature_obj.id e.2 hnd hmem (by rw [hx]; simp)
      rw [h1, hvals e he, heid]

/-- Successful `_render_frame`: the snapshots and the plan are untouched,
one more render is recorded, and animation data only grows. -/
theorem render_frame_ok_spec (ora : RenderOracle) (w : World)
    (ap : ActionExecPlan) (d : Nat) (f : Int)
    (h : ora.fails w.renders_done = false) :
    match render_frame ora w ap d f with
    | Except.error _ => False
    | Except.ok w' =>
      w'.op.plan = w.op.plan ∧
      w'.op.original_frame = w.op.original_frame ∧
      w'.op.original_filepath = w.op.original_filepath ∧
      w'.op.original_actions = w.op.original_actions ∧
      w'.sheets_written = w.sheets_written ∧
      w'.settings.batch_processed_frames = w.settings.batch_processed_frames ∧
      w'.settings.batch_total_frames = w.settings.batch_total_frames ∧
      w'.renders_done = w.renders_done + 1 ∧
      (∀ id, lookupAnim w.scene.anim_data id ≠ none →
        lookupAnim w'.scene.anim_data id ≠ none) := by
  simp only [render_frame, h]
  refine ⟨rfl, rfl, rfl, rfl, rfl, rfl, rfl, rfl, ?_⟩
  intro id hpres
  show lookupAnim (setAnimAction (animDataCreate w.scene ap.armature_obj.id)
    ap.armature_obj.id (some ap.action.id)).anim_data id ≠ none
  have h1 : lookupAnim (animDataCreate w.scene ap.armature_obj.id).anim_data id ≠ none :=
    lookup_create_mono w.scene ap.armature_obj.id id hpres
  intro hc
  exact h1 ((lookup_set_none_iff (animDataCreate w.scene ap.armature_obj.id).anim_data
    ap.armature_obj.id id (some ap.action.id)).mp hc)

theorem setCursor_plan (op : OpState) (c : DriverCursor) :
    (setCursor op c).plan = op.plan := rfl

/-- One timer tick: either one unit was done (run continues, one more
render recorded, sheet/progress counters untouched, invariant preserved),
or the plan was exhausted (batch finished with everything restored), or
the render raised and the exception propagated out of the tick. -/
theorem modal_timer_spec (ora : RenderOracle) (w0 : World) (plan : BatchExecPlan)
    (w : World) (hInv : RunInv w0 plan w) :
    (∃ w', modal ora w BEvent.TIMER = Except.ok (ModalResult.RUNNING_MODAL, w') ∧
      RunInv w0 plan w' ∧ w'.renders_done = w.renders_done + 1 ∧
      w'.sheets_written = w.sheets_written ∧
      w'.settings.batch_processed_frames = w.settings.batch_processed_frames) ∨
    (∃ w', modal ora w BEvent.TIMER = Except.ok (ModalResult.FINISHED, w') ∧
      Restored w0 plan w') ∨
    (∃ werr, modal ora w BEvent.TIMER = Except.error werr) := by
  obtain ⟨hplan, hfr, hfp, hvals, hcov, hnd, hpres⟩ := hInv
  simp only [modal, hplan]
  rcases hnf : nextFrame (opCursor w.op plan) with ⟨item, c⟩
  rcases item with _ | ⟨ap, d, f⟩
  · -- no more work: finished
    refine Or.inr (Or.inl ?_)
    have hInv1 : RunInv w0 plan { w with op := setCursor w.op c } :=
      ⟨hplan, hfr, hfp, hvals, hcov, hnd, hpres⟩
    refine ⟨finish_batch { w with op := setCursor w.op c } false, ?_,
      finish_batch_restores w0 plan _ hInv1 false⟩
    simp [advance_step, hnf]
  · -- one unit of work attempted
    rcases hr : render_frame ora { w with op := setCursor w.op c } ap d f with werr | w2
    · refine Or.inr (Or.inr ⟨werr, ?_⟩)
      simp [advance_step, hnf, hr, Except.map]
    · left
      cases hfail : ora.fails w.renders_done with
      | true =>
        exfalso
        simp [render_frame, hfail] at hr
      | false =>
        have hspec := render_frame_ok_spec ora { w with op := setCursor w.op c } ap d f hfail
        rw [hr] at hspec
        obtain ⟨h1, h2, h3, h4, h5, h6, h7, h8, h9⟩ := hspec
        refine ⟨w2, by simp [advance_step, hnf, hr, Except.map], ⟨?_, ?_, ?_, ?_, ?_, ?_, ?_⟩, h8, h5, h6⟩
        · rw [h1, setCursor_plan]
          exact hplan
        · rw [h2]
          exact hfr
        · rw [h3]
          exact hfp
        · rw [h4]
          exact hvals
        · rw [h4]
          exact hcov
        · rw [h4]
          exact hnd
        · intro id hid
          exact h9 id (hpres id hid)

theorem modal_esc_spec (ora : RenderOracle) (w0 : World) (plan : BatchExecPlan)
    (w : World) (hInv : RunInv w0 plan w) :
    modal ora w BEvent.ESC = Except.ok (ModalResult.CANCELLED, finish_batch w true) ∧
    Restored w0 plan (finish_batch w true) :=
  ⟨rfl, finish_batch_restores w0 plan w hInv true⟩

/-- Any terminal outcome of the modal event loop has every snapshotted
value restored. -/
theorem runEvents_spec (ora : RenderOracle)
    (w0 : World) (plan : BatchExecPlan) :
    ∀ (events : List BEvent) (w : World), RunInv w0 plan w →
    (∀ wf, runEvents ora events w = RunOutcome.finished wf → Restored w0 plan wf) ∧
    (∀ wf, runEvents ora events w = RunOutcome.cancelled wf → Restored w0 plan wf) := by
  intro events
  induction events with
  | nil =>
    intro w _
    constructor <;> intro wf h <;> simp [runEvents] at h
  | cons ev rest ih =>
    intro w hInv
    cases ev with
    | ESC =>
      obtain ⟨heq, hres⟩ := modal_esc_spec ora w0 plan w hInv
      constructor <;> intro wf h <;> simp only [runEvents, heq] at h
      · exact absurd h (by simp)
      · injection h with h2
        rw [← h2]
        exact hres
    | OTHER =>
      have h0 := ih w hInv
      exact ⟨fun wf h => h0.1 wf h, fun wf h => h0.2 wf h⟩
    | TIMER =>
      rcases modal_timer_spec ora w0 plan w hInv with
        ⟨w', heq, hInv', _, _, _⟩ | ⟨w', heq, hres⟩ | ⟨werr, heq⟩
      · have h0 := ih w' hInv'
        constructor <;> intro wf h <;> simp only [runEvents, heq] at h
        · exact h0.1 wf h
        · exact h0.2 wf h
      · constructor <;> intro wf h <;> simp only [runEvents, heq] at h
        · injection h with h2
          rw [← h2]
          exact hres
        · exact absurd h (by simp)
      · constructor <;> intro wf h <;> simp only [runEvents, heq] at h <;>
          exact absurd h (by simp)

theorem execute_eq (output_dir : String) (w0 : World) (pa : List SGG_ArmaturePlanItem)
    (d s : Int) (hne : (BatchExecPlan.from_scene pa d s).actions.isEmpty = false) :
    execute output_dir w0 pa d s = (ModalResult.RUNNING_MODAL,
      executedWorld output_dir w0 (BatchExecPlan.from_scene pa d s)) := by
  simp [execute, hne, executedWorld]

theorem executedWorld_inv (output_dir : String) (w0 : World) (plan : BatchExecPlan) :
    RunInv w0 plan (executedWorld output_dir w0 plan) :=
  ⟨rfl, rfl, rfl,
    snapshot_values w0.scene plan.actions [] (by intro e h; simp at h),
    fun ap hap => snapshot_covers w0.scene plan.actions [] ap hap,
    snapshot_nodup w0.scene plan.actions [] (by simp),
    fun _ h => h⟩

/-- Cancelling after `N` work ticks: counts of renders done, sheets
written and the progress counter relative to the world the ticks started
from, plus full restoration. -/
theorem runEvents_cancel_spec (ora : RenderOracle) (w0 : World) (plan : BatchExecPlan) :
    ∀ (N : Nat) (w : World), RunInv w0 plan w →
    ∀ wf, runEvents ora (List.replicate N BEvent.TIMER ++ [BEvent.ESC]) w
        = RunOutcome.cancelled wf →
      wf.renders_done = w.renders_done + N ∧
      wf.sheets_written = w.sheets_written ∧
      wf.settings.batch_processed_frames = w.settings.batch_processed_frames ∧
      Restored w0 plan wf := by
  intro N
  induction N with
  | zero =>
    intro w hInv wf h
    obtain ⟨heq, hres⟩ := modal_esc_spec ora w0 plan w hInv
    simp only [List.replicate_zero, List.nil_append, runEvents, heq] at h
    injection h with h2
    rw [← h2]
    exact ⟨(finish_batch_counters w).1, (finish_batch_counters w).2.1,
      by rw [(finish_batch_counters w).2.2], hres⟩
  | succ n ih =>
    intro w hInv wf h
    rw [List.replicate_succ, List.cons_append] at h
    rcases modal_timer_spec ora w0 plan w hInv with
      ⟨w', heq, hInv', hrd, hsh, hpf⟩ | ⟨w', heq, _⟩ | ⟨werr, heq⟩
    · simp only [runEvents, heq] at h
      obtain ⟨a, b, c2, d2⟩ := ih w' hInv' wf h
      refine ⟨by rw [a, hrd]; omega, by rw [b, hsh], by rw [c2, hpf], d2⟩
    · simp only [runEvents, heq] at h
      exact absurd h (by simp)
    · simp only [runEvents, heq] at h
      exact absurd h (by simp)

/-- C2: every batch run that reaches a terminal transition (Completed or
Cancelled) leaves each global value snapshotted at entry — the scene's
current frame pointer, the render output file path, and each plan
armature's active action binding — equal to its pre-run value. -/
theorem C2_terminal_restores (ora : RenderOracle) (output_dir : String)
    (w0 : World) (pa : List SGG_ArmaturePlanItem) (d s : Int)
    (events : List BEvent)
    (h : isFinished (runDriver ora output_dir w0 pa d s events) = true ∨
         isCancelled (runDriver ora output_dir w0 pa d s events) = true) :
    Restored w0 (BatchExecPlan.from_scene pa d s)
      (outcomeWorld (runDriver ora output_dir w0 pa d s events)) := by
  cases hne : (BatchExecPlan.from_scene pa d s).actions.isEmpty with
  | true =>
    have hrd : runDriver ora output_dir w0 pa d s events = RunOutcome.notStarted w0 := by
      simp [runDriver, execute, hne]
    rw [hrd] at h
    rcases h with h | h <;> simp [isFinished, isCancelled] at h
  | false =>
    have hex := execute_eq output_dir w0 pa d s hne
    have hrd : runDriver ora output_dir w0 pa d s events
        = runEvents ora events (executedWorld output_dir w0 (BatchExecPlan.from_scene pa d s)) := by
      simp [runDriver, hex]
    have hspec := runEvents_spec ora w0 (BatchExecPlan.from_scene pa d s) events
      (executedWorld output_dir w0 (BatchExecPlan.from_scene pa d s))
      (executedWorld_inv output_dir w0 (BatchExecPlan.from_scene pa d s))
    rw [hrd] at h ⊢
    rcases ho : runEvents ora events
        (executedWorld output_dir w0 (BatchExecPlan.from_scene pa d s)) with
      w' | w' | w' | w' | w' <;> rw [ho] at h <;>
      rcases h with h | h <;> simp [isFinished, isCancelled] at h
    · exact hspec.1 w' ho
    · exact hspec.2 w' ho

theorem C2_terminal_restores_witness :
    (isFinished (runDriver okOracle "out" testWorld testPS 1 1
        [BEvent.TIMER, BEvent.TIMER, BEvent.TIMER]) = true ∨
      isCancelled (runDriver okOracle "out" testWorld testPS 1 1
        [BEvent.TIMER, BEvent.TIMER, BEvent.TIMER]) = true) ∧
    Restored testWorld (BatchExecPlan.from_scene testPS 1 1)
      (outcomeWorld (runDriver okOracle "out" testWorld testPS 1 1
        [BEvent.TIMER, BEvent.TIMER, BEvent.TIMER])) :=
  ⟨Or.inl (by decide),
    C2_terminal_restores okOracle "out" testWorld testPS 1 1
      [BEvent.TIMER, BEvent.TIMER, BEvent.TIMER] (Or.inl (by decide))⟩

/-- C5 (corrected): a cancellation signal observed at the start of a tick
transitions to Cancelled without running the Sheet Assembler, and after N
work ticks exactly N renders were performed, no sheet was written, and
all snapshotted global state is restored — but `processed_frames` equals
its pre-run value, not N, because the driver never increments it. -/
theorem C5_cancel_after_n_ticks (ora : RenderOracle) (output_dir : String)
    (w0 : World) (pa : List SGG_ArmaturePlanItem) (d s : Int) (N : Nat) (wf : World)
    (h : runDriver ora output_dir w0 pa d s
        (List.replicate N BEvent.TIMER ++ [BEvent.ESC]) = RunOutcome.cancelled wf) :
    wf.renders_done = w0.renders_done + N ∧
    wf.sheets_written = w0.sheets_written ∧
    wf.settings.batch_processed_frames = w0.settings.batch_processed_frames ∧
    Restored w0 (BatchExecPlan.from_scene pa d s) wf := by
  cases hne : (BatchExecPlan.from_scene pa d s).actions.isEmpty with
  | true =>
    have hrd : runDriver ora output_dir w0 pa d s
        (List.replicate N BEvent.TIMER ++ [BEvent.ESC]) = RunOutcome.notStarted w0 := by
      simp [runDriver, execute, hne]
    rw [hrd] at h
    exact absurd h (by simp)
  | false =>
    have hex := execute_eq output_dir w0 pa d s hne
    have hrd : runDriver ora output_dir w0 pa d s
        (List.replicate N BEvent.TIMER ++ [BEvent.ESC])
        = runEvents ora (List.replicate N BEvent.TIMER ++ [BEvent.ESC])
            (executedWorld output_dir w0 (BatchExecPlan.from_scene pa d s)) := by
      simp [runDriver, hex]
    rw [hrd] at h
    exact runEvents_cancel_spec ora w0 (BatchExecPlan.from_scene pa d s) N
      (executedWorld output_dir w0 (BatchExecPlan.from_scene pa d s))
      (executedWorld_inv output_dir w0 (BatchExecPlan.from_scene pa d s)) wf h

theorem C5_cancel_after_n_ticks_witness :
    runDriver okOracle "out" testWorld testPS 1 1
        (List.replicate 1 BEvent.TIMER ++ [BEvent.ESC])
      = RunOutcome.cancelled (outcomeWorld (runDriver okOracle "out" testWorld testPS 1 1
        (List.replicate 1 BEvent.TIMER ++ [BEvent.ESC]))) ∧
    (outcomeWorld (runDriver okOracle "out" testWorld testPS 1 1
        (List.replicate 1 BEvent.TIMER ++ [BEvent.ESC]))).renders_done
      = testWorld.renders_done + 1 :=
  ⟨by decide,
    (C5_cancel_after_n_ticks okOracle "out" testWorld testPS 1 1 1 _ (by decide)).1⟩

/-- C5 counterexample to the claim as stated: cancelling after 1 of the 2
total ticks of the test plan leaves one render performed, yet
`processed_frames` is 0, not 1 — the claim's `processed_frames == N` is
false. -/
theorem C5_cancel_counterexample :
    isCancelled (runDriver okOracle "out" testWorld testPS 1 1
      [BEvent.TIMER, BEvent.ESC]) = true ∧
    (outcomeWorld (runDriver okOracle "out" testWorld testPS 1 1
      [BEvent.TIMER, BEvent.ESC])).renders_done = 1 ∧
    ¬ (outcomeWorld (runDriver okOracle "out" testWorld testPS 1 1
      [BEvent.TIMER, BEvent.ESC])).settings.batch_processed_frames = 1 := by
  decide

/-- C3: the claim is false of the code — when the render invocation
raises on a tick, there is no guaranteed-restoration pattern: the
exception propagates with the scene's frame pointer, render filepath and
the armature's active action binding all still holding mid-render values,
none of them restored to the snapshots. -/
theorem C3_raise_no_restore :
    isRaised (runDriver failOracle "out" testWorld testPS 1 1 [BEvent.TIMER]) = true ∧
    (outcomeWorld (runDriver failOracle "out" testWorld testPS 1 1
      [BEvent.TIMER])).scene.frame_current ≠ testWorld.scene.frame_current ∧
    (outcomeWorld (runDriver failOracle "out" testWorld testPS 1 1
      [BEvent.TIMER])).scene.render_filepath ≠ testWorld.scene.render_filepath ∧
    adActionOrNone (outcomeWorld (runDriver failOracle "out" testWorld testPS 1 1
      [BEvent.TIMER])).scene testArm.id
      ≠ adActionOrNone testWorld.scene testArm.id := by
  decide

/-- C4: the claim is false of the code — a completed two-unit run records
the render duration and performs both renders, yet `processed_frames` is
never incremented by any unit of work: it is still 0, not 2, at the
Completed transition. -/
theorem C4_processed_frames_never_incremented :
    isFinished (runDriver okOracle "out" testWorld testPS 1 1
      [BEvent.TIMER, BEvent.TIMER, BEvent.TIMER]) = true ∧
    (outcomeWorld (runDriver okOracle "out" testWorld testPS 1 1
      [BEvent.TIMER, BEvent.TIMER, BEvent.TIMER])).renders_done = 2 ∧
    (outcomeWorld (runDriver okOracle "out" testWorld testPS 1 1
      [BEvent.TIMER, BEvent.TIMER, BEvent.TIMER])).settings.last_frame_render_seconds = 11 ∧
    (outcomeWorld (runDriver okOracle "out" testWorld testPS 1 1
      [BEvent.TIMER, BEvent.TIMER, BEvent.TIMER])).settings.batch_processed_frames = 0 := by
  decide

set_option maxRecDepth 20000 in
theorem assembleGroup_struct (P Q : List Int) :
    assembleGroup [(0, List.replicate 3 ((4, 4, P) : FrameImg)),
        (1, List.replicate 3 ((4, 4, Q) : FrameImg))]
      = some (12, 8, sheeted P Q) := by
  rw [show List.replicate 3 ((4, 4, P) : FrameImg) = [(4, 4, P), (4, 4, P), (4, 4, P)] from rfl,
    show List.replicate 3 ((4, 4, Q) : FrameImg) = [(4, 4, Q), (4, 4, Q), (4, 4, Q)] from rfl]
  simp only [assembleGroup, sortNat, insertSorted, List.foldr, List.map, List.find?,
    List.enum, List.enumFrom, List.foldl, Option.map, Option.getD, List.length,
    sheeted, beq_self_eq_true, beq_iff_eq]
  norm_num

theorem map_pySliceAssign (m : Int → Int) (dst : List Int) (s t : Nat) (src : List Int) :
    (pySliceAssign dst s t src).map m = pySliceAssign (dst.map m) s t (src.map m) := by
  simp [pySliceAssign, List.map_take, List.map_drop]

theorem map_copyFrame (m : Int → Int) (sheet : List Int) (sw fw fh dr ci : Nat)
    (px : List Int) :
    (copyFrame sheet sw fw fh dr ci px).map m
      = copyFrame (sheet.map m) sw fw fh dr ci (px.map m) := by
  rw [copyFrame, copyFrame]
  refine (List.foldl_hom (List.map m) _ _ _ sheet ?_).symm
  intro sp fy
  simp [map_pySliceAssign, List.map_take, List.map_drop]

theorem map_sheeted (m : Int → Int) (hm : m 0 = 0) (P Q : List Int) :
    sheeted (P.map m) (Q.map m) = (sheeted P Q).map m := by
  simp only [sheeted, map_copyFrame, List.map_replicate, hm]

set_option maxRecDepth 100000 in
theorem sheeted_concrete :
    sheeted (List.replicate 64 (1 : Int)) (List.replicate 64 (2 : Int))
      = List.replicate 192 (2 : Int) ++ List.replicate 192 (1 : Int) := by decide

/-- C9 (corrected): a group of 2 directions × 3 frames of uniform 4×4
frames composes to a 12-wide by 8-tall buffer, and each direction row
index r of R = 2 total rows is copied into destination band R - 1 - r of
the bottom-left-origin buffer — which places direction-index-0 frames in
the TOP band of the output (buffer rows 4..7, the second half of the
buffer) and direction-index-1 frames in the BOTTOM band (buffer rows
0..3), the opposite band assignment to the claim's. -/
theorem C9_sheet_layout (a b : Int) :
    assembleGroup [(0, List.replicate 3 ((4, 4, List.replicate 64 a) : FrameImg)),
        (1, List.replicate 3 ((4, 4, List.replicate 64 b) : FrameImg))]
      = some (12, 8, List.replicate 192 b ++ List.replicate 192 a) := by
  have hm0 : (fun v : Int => if v = 1 then a else if v = 2 then b else 0) 0 = 0 := by
    norm_num
  have ha : List.replicate 64 a
      = (List.replicate 64 (1 : Int)).map
          (fun v : Int => if v = 1 then a else if v = 2 then b else 0) := by
    simp
  have hb : List.replicate 64 b
      = (List.replicate 64 (2 : Int)).map
          (fun v : Int => if v = 1 then a else if v = 2 then b else 0) := by
    norm_num
  rw [assembleGroup_struct, ha, hb,
    map_sheeted (fun v : Int => if v = 1 then a else if v = 2 then b else 0) hm0,
    sheeted_concrete]
  norm_num

set_option maxRecDepth 100000 in
/-- C9 counterexample to the claim's band assignment: with direction 0
uniformly 1 and direction 1 uniformly 2, the bottom band of the composed
buffer (its first 192 values, buffer rows 0..3) holds direction 1's
pixels, not direction 0's. -/
theorem C9_bottom_band_counterexample :
    assembleGroup [(0, List.replicate 3 ((4, 4, List.replicate 64 (1 : Int)) : FrameImg)),
        (1, List.replicate 3 ((4, 4, List.replicate 64 (2 : Int)) : FrameImg))]
      = some (12, 8, List.replicate 192 (2 : Int) ++ List.replicate 192 (1 : Int)) ∧
    (List.replicate 192 (2 : Int) ++ List.replicate 192 (1 : Int)).take 192
      ≠ List.replicate 192 (1 : Int) := by
  decide

end SGG
